import Mathlib

/-!
Verification development for the transit graph integration core
(src/src/mjolnir/transitbuilder.cc).

The definitions below are a shallow embedding of that source file.
Pure C++ functions become Lean functions; the imperative loops of
`ProcessStopPairs`, `AddToGraph`, `AddOSMConnection` and the stop loop of
`build` become structurally recursive functions over explicit state
records.  Machine integers are modelled as `Nat` with explicit `% 2^32`
where unsigned wrap-around matters.  Fallible code (a C++ exception, an
out-of-bounds protobuf access, or a loop that cannot make progress within
its fuel) returns `Option`.  External collaborators that are not part of
the repository snapshot (the valhalla `baldr` date-time helpers, the tile
builder's `AddEdgeInfo`/`AddName`, geodesic lengths) are modelled from the
specification; each such definition carries a doc comment starting with
"Modelled from the spec:".
-/

set_option autoImplicit false

/-- A valhalla graph identifier.  Modelled from the spec: a 64-bit
identifier with three fields, `tile_id`, `level` and `node_or_edge_index`;
the bit packing itself is layout and is not modelled. -/
structure GraphId where
  tileid : Nat
  level : Nat
  id : Nat
deriving DecidableEq, Repr, Inhabited

/-- Modelled from the spec: the distinguished invalid GraphId sentinel
(all fields at their maximal bit pattern in the source). -/
def GraphId.invalid : GraphId := ⟨4194303, 7, 2097151⟩

/-- The tile base of a GraphId: the same tile and level with index 0. -/
def GraphId.tileBase (g : GraphId) : GraphId := ⟨g.tileid, g.level, 0⟩

/-- Association-list lookup used to model the various `unordered_map`s. -/
def alookup {α β : Type} [DecidableEq α] : List (α × β) → α → Option β
  | [], _ => none
  | (k, v) :: r, a => if k = a then some v else alookup r a

/-- Association-list update (last writer wins), used to model
`stop_access[key] = value`. -/
def aset {α β : Type} [DecidableEq α] : List (α × β) → α → β → List (α × β)
  | [], a, b => [(a, b)]
  | (k, v) :: r, a, b => if k = a then (a, b) :: r else (k, v) :: aset r a b

/-- `GetGraphId` (transitbuilder.cc lines 343-351): converts a stop's pbf
graph id to a valhalla graph id by adding the tile's prior node count;
returns the invalid sentinel when the tile base is not a key of
`tile_node_counts`. -/
def GetGraphId (nodeid : GraphId) (tile_node_counts : List (GraphId × Nat)) : GraphId :=
  match alookup tile_node_counts nodeid.tileBase with
  | none => GraphId.invalid
  | some t => ⟨nodeid.tileid, nodeid.level, nodeid.id + t⟩

/-- A geographic point (lon, lat).  Coordinates only flow through the
functions modelled here; geodesic computations on them are abstracted as
function parameters. -/
abbrev PointLL := Rat × Rat

/-- A transit stop from the pbf input (`Transit_Stop`). -/
structure TransitStop where
  graphid : GraphId
  name : String := ""
  onestop_id : String := ""
  lon : Rat := 0
  lat : Rat := 0
  osm_way_id : Nat := 0
  timezone : Nat := 0
deriving DecidableEq, Repr, Inhabited

/-- A schedule stop pair from the pbf input (`Transit_StopPair`).  Dates
are Julian day numbers, as produced by
`gregorian_calendar::from_julian_day_number` in the source. -/
structure StopPair where
  origin_graphid : GraphId
  destination_graphid : GraphId
  route_index : Nat := 0
  trip_key : Nat := 0
  block_id : Nat := 0
  origin_departure_time : Nat := 0
  destination_arrival_time : Nat := 0
  service_days_of_week : List Bool := []
  service_start_date : Nat := 0
  service_end_date : Nat := 0
  service_except_dates : List Nat := []
  service_added_dates : List Nat := []
  trip_headsign : String := ""
  bikes_allowed : Bool := false
deriving DecidableEq, Repr, Inhabited

/-- The decoded transit record of one tile (the fields of `Transit` that
`ProcessStopPairs` reads). -/
structure Transit where
  stops : List TransitStop := []
  stop_pairs : List StopPair := []
deriving DecidableEq, Repr, Inhabited

/-- A derived departure record (struct `Departure` in the source; the
`wheelchair_accessible` and `short_name` fields are never written by
`ProcessStopPairs` and are omitted). -/
structure Departure where
  days : Nat
  orig_pbf_graphid : GraphId
  dest_pbf_graphid : GraphId
  trip : Nat
  route : Nat
  blockid : Nat
  shapeid : Nat
  dep_time : Nat
  arr_time : Nat
  end_day : Nat
  dow : Nat
  headsign : String
deriving DecidableEq, Repr, Inhabited

/-- Log severities of the midgard logging macros used by the source. -/
inductive Sev
  | info
  | warn
  | error
deriving DecidableEq, Repr

/-- One emitted log line. -/
structure LogEntry where
  sev : Sev
  msg : String
deriving DecidableEq, Repr

/-- Day-of-week bits (valhalla graphconstants): Monday = 1 .. Sunday = 64. -/
def kMonday : Nat := 1

def kTuesday : Nat := 2

def kWednesday : Nat := 4

def kThursday : Nat := 8

def kFriday : Nat := 16

def kSaturday : Nat := 32

def kSunday : Nat := 64

/-- The day-of-week bit for position `x` of the 7-element
`service_days_of_week` vector (the `switch` in ProcessStopPairs lines
142-165; positions beyond 6 have no case and contribute nothing). -/
def dowBitFor (x : Nat) : Nat :=
  match x with
  | 0 => kMonday
  | 1 => kTuesday
  | 2 => kWednesday
  | 3 => kThursday
  | 4 => kFriday
  | 5 => kSaturday
  | 6 => kSunday
  | _ => 0

/-- The DOW mask computed from the `service_days_of_week` flag vector
(ProcessStopPairs lines 139-168; `kDOWNone = 0`). -/
def dowMaskOf (l : List Bool) : Nat :=
  (List.range l.length).foldl (fun m x => if l.getD x false then m ||| dowBitFor x else m) 0

/-- Modelled from the spec: the pivot date epoch of the service-days
bitmap, as a Julian day number (2014-01-01; Julian day numbers map day 0
to a Monday, and this value is ≡ 2 mod 7, a Wednesday). -/
def pivotJDN : Nat := 2456659

/-- Modelled from the spec: `DateTime::days_from_pivot_date`, the number
of days from the pivot epoch to the given date. -/
def days_from_pivot_date (jdn : Nat) : Nat := jdn - pivotJDN

/-- Modelled from the spec: `DateTime::get_service_days(start, end,
tile_ref, dow_mask)`.  Bit `d` of the 64-bit result is set iff the day
`tile_ref + d` (relative to the pivot epoch) lies in `[start, end]` and
its day of week is in `dow_mask`. -/
def get_service_days (start_jdn end_jdn tile_date dow_mask : Nat) : Nat :=
  (List.range 64).foldl
    (fun bits d =>
      let day := pivotJDN + tile_date + d
      if start_jdn ≤ day ∧ day ≤ end_jdn ∧ dow_mask &&& (1 <<< (day % 7)) ≠ 0 then
        bits ||| (1 <<< d)
      else bits)
    0

/-- Clear bit `k` of `n`. -/
def clearBit (n k : Nat) : Nat := if n.testBit k then n - (1 <<< k) else n

/-- Set bit `k` of `n`. -/
def setBit (n k : Nat) : Nat := if n.testBit k then n else n + (1 <<< k)

/-- Modelled from the spec: `DateTime::remove_service_day(days, start,
end, date)` turns off the bit of `date` when it lies inside the feed's
validity window.  The bitmap is aligned to the tile reference date, which
the source leaves implicit in the bitmap itself and the model passes
explicitly as `tile_date`. -/
def remove_service_day (days start_jdn end_jdn tile_date date_jdn : Nat) : Nat :=
  if start_jdn ≤ date_jdn ∧ date_jdn ≤ end_jdn ∧ pivotJDN + tile_date ≤ date_jdn ∧
      date_jdn < pivotJDN + tile_date + 64 then
    clearBit days (date_jdn - (pivotJDN + tile_date))
  else days

/-- Modelled from the spec: `DateTime::add_service_day(days, start, end,
date)` turns on the bit of `date` when it lies inside the feed's validity
window; idempotent in window, no-op out of window. -/
def add_service_day (days start_jdn end_jdn tile_date date_jdn : Nat) : Nat :=
  if start_jdn ≤ date_jdn ∧ date_jdn ≤ end_jdn ∧ pivotJDN + tile_date ≤ date_jdn ∧
      date_jdn < pivotJDN + tile_date + 64 then
    setBit days (date_jdn - (pivotJDN + tile_date))
  else days

/-- Initial service-days bitmap of a stop pair (ProcessStopPairs line
174): the bitmap before exception dates are applied. -/
def initialDays (tile_date : Nat) (sp : StopPair) : Nat :=
  get_service_days sp.service_start_date sp.service_end_date tile_date
    (dowMaskOf sp.service_days_of_week)

/-- Final service-days bitmap of a stop pair (ProcessStopPairs lines
189-198): exception subtractions applied first, then additions. -/
def finalDays (tile_date : Nat) (sp : StopPair) : Nat :=
  sp.service_added_dates.foldl
    (fun ds d => add_service_day ds sp.service_start_date sp.service_end_date tile_date d)
    (sp.service_except_dates.foldl
      (fun ds d => remove_service_day ds sp.service_start_date sp.service_end_date tile_date d)
      (initialDays tile_date sp))

/-- The Departure record built from a stop pair that passed the
`days == 0` check (ProcessStopPairs lines 128-198). -/
def mkDeparture (tile_date : Nat) (sp : StopPair) : Departure :=
  { days := finalDays tile_date sp
    orig_pbf_graphid := sp.origin_graphid
    dest_pbf_graphid := sp.destination_graphid
    trip := sp.trip_key
    route := sp.route_index
    blockid := sp.block_id
    shapeid := 0
    dep_time := sp.origin_departure_time
    arr_time := sp.destination_arrival_time
    end_day := days_from_pivot_date sp.service_end_date -
      days_from_pivot_date sp.service_start_date
    dow := dowMaskOf sp.service_days_of_week
    headsign := sp.trip_headsign }

/-- The result of `ProcessStopPairs`: the departures multimap (as an
association list in emplacement order), the updated `stop_access` in/out
map, and the emitted log lines. -/
structure PSPOut where
  departures : List (GraphId × Departure)
  stop_access : List (GraphId × Bool)
  logs : List LogEntry
deriving DecidableEq, Repr

/-- One iteration of the stop-pair loop of `ProcessStopPairs` (lines
120-202).  The `days == 0` check uses the initial bitmap, before the
exception dates are applied; the rejected-feed warning message performs
pointer arithmetic on a string literal in the source and is modelled by
the literal alone. -/
def pspStep (tile_date : Nat) (st : PSPOut) (sp : StopPair) : PSPOut :=
  if initialDays tile_date sp = 0 then
    { st with logs := st.logs ++ [⟨Sev.warn, "Feed rejected!  End date:"⟩] }
  else
    { st with
        departures := st.departures ++ [(sp.origin_graphid, mkDeparture tile_date sp)]
        stop_access :=
          aset (aset st.stop_access sp.origin_graphid sp.bikes_allowed)
            sp.destination_graphid sp.bikes_allowed }

/-- `ProcessStopPairs` (transitbuilder.cc lines 102-206). -/
def ProcessStopPairs (transit : Transit) (tile_date : Nat)
    (stop_access : List (GraphId × Bool)) (tile_id : GraphId) : PSPOut :=
  if transit.stop_pairs.length = 0 then
    if 0 < transit.stops.length then
      ⟨[], stop_access,
        [⟨Sev.error,
          "Tile " ++ toString tile_id.tileid ++ " has 0 schedule stop pairs but has " ++
            toString transit.stops.length ++ " stops"⟩]⟩
    else ⟨[], stop_access, []⟩
  else
    let st := transit.stop_pairs.foldl (pspStep tile_date) ⟨[], stop_access, []⟩
    { st with
        logs := st.logs ++
          [⟨Sev.info,
            "Tile " ++ toString tile_id.tileid ++ ": added " ++
              toString st.departures.length ++ " departures"⟩] }

/-- A unique route/destination pair at an origin stop (struct
`TransitLine`). -/
structure TransitLine where
  lineid : Nat
  routeid : Nat
  dest_pbf_graphid : GraphId
  shapeid : Nat
deriving DecidableEq, Repr, Inhabited

/-- The edges to be added for one origin stop (struct `StopEdges`; the
intra-station connections are dead code in the source and stay empty). -/
structure StopEdges where
  origin_pbf_graphid : GraphId
  intrastation : List GraphId := []
  lines : List TransitLine := []
deriving DecidableEq, Repr, Inhabited

/-- A compacted transit departure record (the `TransitDeparture` fields
set by the stop loop of `build`, lines 954-965). -/
structure TransitDeparture where
  lineid : Nat
  tripid : Nat
  routeid : Nat
  blockid : Nat
  headsign_offset : Nat
  departure_time : Nat
  elapsed_time : Nat
  end_day : Nat
  days_dow : Nat
  days : Nat
deriving DecidableEq, Repr, Inhabited

/-- Modelled from the spec: `GraphTileBuilder::AddName` returns a text
offset for a string; offsets are opaque and the model returns the
position in the accumulated name list. -/
def AddName (s : String) (names : List String) : Nat × List String :=
  (names.length, names ++ [s])

/-- The `TransitDeparture` built from a departure (build, lines 954-959).
`elapsed_time` is the C++ expression `dep.arr_time - dep.dep_time` on
`uint32_t` operands, i.e. subtraction modulo 2^32 for inputs below
2^32. -/
def mkTransitDeparture (lineid headsign_offset : Nat) (d : Departure) : TransitDeparture :=
  { lineid := lineid
    tripid := d.trip
    routeid := d.route
    blockid := d.blockid
    headsign_offset := headsign_offset
    departure_time := d.dep_time
    elapsed_time := (d.arr_time + 4294967296 - d.dep_time) % 4294967296
    end_day := d.end_day
    days_dow := d.dow
    days := d.days }

/-- Accumulator of the per-stop departure loop (build, lines 932-966):
the tile-wide `unique_lineid` counter, the per-stop
`unique_transit_edges` map, this stop's `lines`, the builder name table
and the emitted transit departures. -/
structure DepAcc where
  uniq : Nat
  umap : List ((Nat × GraphId) × Nat)
  lines : List TransitLine
  names : List String
  tds : List TransitDeparture
deriving DecidableEq, Repr

/-- One iteration of the departure loop at a stop (build, lines 934-966). -/
def depStep (a : DepAcc) (d : Departure) : DepAcc :=
  match alookup a.umap (d.route, d.dest_pbf_graphid) with
  | none =>
    let lineid := a.uniq
    let r := AddName d.headsign a.names
    { uniq := a.uniq + 1
      umap := a.umap ++ [((d.route, d.dest_pbf_graphid), lineid)]
      lines := a.lines ++ [⟨lineid, d.route, d.dest_pbf_graphid, d.shapeid⟩]
      names := r.2
      tds := a.tds ++ [mkTransitDeparture lineid r.1 d] }
  | some lineid =>
    let r := AddName d.headsign a.names
    { a with names := r.2, tds := a.tds ++ [mkTransitDeparture lineid r.1 d] }

/-- State threaded through the stop loop of `build` (lines 900-975). -/
structure StopLoopState where
  unique_lineid : Nat
  names : List String
  sem : List (GraphId × StopEdges)
  tds : List TransitDeparture
deriving DecidableEq, Repr

/-- One iteration of the stop loop of `build` (lines 915-975): gather the
stop's departures from the multimap, dedup (route, destination) pairs
into lines, and emit one compacted departure per record.  `stop_edge_map`
is a `std::map` keyed by the stop's pbf graph id; stops are visited in
index order and their graph ids are increasing within a tile, so the
model accumulates the entries in visit order. -/
def stopStep (departures : List (GraphId × Departure)) (st : StopLoopState)
    (stop : TransitStop) : StopLoopState :=
  let stop_pbf_graphid := stop.graphid
  let deps := (departures.filter (fun p => decide (p.1 = stop_pbf_graphid))).map (fun p => p.2)
  let a := deps.foldl depStep ⟨st.unique_lineid, [], [], st.names, []⟩
  { unique_lineid := a.uniq
    names := a.names
    sem := st.sem ++ [(stop_pbf_graphid, ⟨stop_pbf_graphid, [], a.lines⟩)]
    tds := st.tds ++ a.tds }

/-- The stop loop of `build` (lines 903-975): `unique_lineid` starts at
1 (0 is reserved). -/
def buildStopLoop (stops : List TransitStop) (departures : List (GraphId × Departure))
    (names0 : List String) : StopLoopState :=
  stops.foldl (stopStep departures) ⟨1, names0, [], []⟩

/-- A stop-to-road connection edge (struct `OSMConnectionEdge`). -/
structure OSMConnectionEdge where
  osm_node : GraphId
  stop_node : GraphId
  length : Rat
  shape : List PointLL
deriving DecidableEq, Repr

instance : Inhabited OSMConnectionEdge := ⟨⟨⟨0, 0, 0⟩, ⟨0, 0, 0⟩, 0, []⟩⟩

/-- The emission part of `AddOSMConnection` (transitbuilder.cc lines
756-795), given the result of the closest-edge scan: the stop's pbf id
and position, the matched edge's bounding nodes, its (already
direction-corrected) polyline, the closest point and its segment index.
Geodesic shape length (`midgard::length`) is abstracted as `len`. -/
def AddOSMConnectionEmit (stop_pbf_graphid : GraphId) (stop_ll : PointLL)
    (startnode endnode : GraphId) (closest_shape : List PointLL)
    (closest_pt : PointLL) (closest_idx : Nat)
    (len : List PointLL → Rat) : List OSMConnectionEdge :=
  let part1 : List OSMConnectionEdge :=
    if stop_pbf_graphid.tileBase = startnode.tileBase then
      let shape := closest_shape.take (closest_idx + 1) ++ [closest_pt, stop_ll]
      let length := max 1 (len shape)
      [⟨startnode, stop_pbf_graphid, length, shape⟩]
    else []
  let part2 : List OSMConnectionEdge :=
    if stop_pbf_graphid.tileBase = endnode.tileBase ∧ startnode.tileid = endnode.tileid then
      let shape2 := (closest_shape.drop (closest_idx + 1)).reverse ++ [closest_pt, stop_ll]
      let length2 := max 1 (len shape2)
      [⟨endnode, stop_pbf_graphid, length2, shape2⟩]
    else []
  part1 ++ part2

/-- Road classes referenced by the source (`RoadClass::kServiceOther` is
the only one it writes; `kOther` stands for any other input value). -/
inductive RoadClass
  | kServiceOther
  | kOther
deriving DecidableEq, Repr, Inhabited

/-- Edge uses referenced by the source (`kOther` stands for any other
input value). -/
inductive Use
  | kRoad
  | kRail
  | kBus
  | kTransitConnection
  | kOther
deriving DecidableEq, Repr, Inhabited

/-- Node types referenced by the source. -/
inductive NodeType
  | kStreetIntersection
  | kMultiUseTransitStop
  | kOther
deriving DecidableEq, Repr, Inhabited

/-- Modelled from the spec: the pedestrian access bit
(`kPedestrianAccess` of the valhalla graph constants). -/
def kPedestrianAccess : Nat := 2

/-- The directed-edge fields read or written by `AddToGraph`.  A
default-constructed C++ `DirectedEdge` is zero-initialized. -/
structure DirectedEdge where
  endnode : GraphId := ⟨0, 0, 0⟩
  length : Rat := 0
  use : Use := Use.kOther
  speed : Nat := 0
  classification : RoadClass := RoadClass.kOther
  localedgeidx : Nat := 0
  forwardaccess : Nat := 0
  reverseaccess : Nat := 0
  edgeinfo_offset : Nat := 0
  forward : Bool := false
  lineid : Nat := 0
  exitsign : Bool := false
  access_restriction : Bool := false
deriving DecidableEq, Repr

instance : Inhabited DirectedEdge := ⟨{}⟩

/-- The node fields read or written by `AddToGraph`. -/
structure NodeInfo where
  latlng : PointLL := (0, 0)
  classification : RoadClass := RoadClass.kOther
  access : Nat := 0
  ntype : NodeType := NodeType.kStreetIntersection
  traffic_signal : Bool := false
  child : Bool := false
  parent : Bool := false
  mode_change : Bool := false
  stop_index : Nat := 0
  timezone : Nat := 0
  edge_index : Nat := 0
  edge_count : Nat := 0
deriving DecidableEq, Repr

instance : Inhabited NodeInfo := ⟨{}⟩

/-- A stored edge-info record.  Modelled from the spec: the tile builder
dedups edge info on the (way id, node pair) tuple with the node pair in
canonical order, so that the two directions of one connection share a
record; offsets are opaque and the model uses the record's position. -/
structure EdgeInfoRec where
  wayid : Nat
  a : GraphId
  b : GraphId
  shape : List PointLL
deriving DecidableEq, Repr

/-- Lexicographic order on GraphId fields used to canonicalize the node
pair of an edge-info record. -/
def GraphId.leb (x y : GraphId) : Bool :=
  decide (x.tileid < y.tileid) ||
    (decide (x.tileid = y.tileid) &&
      (decide (x.level < y.level) ||
        (decide (x.level = y.level) && decide (x.id ≤ y.id))))

/-- Position of the edge-info record with the given key, if present. -/
def findEdgeInfo : List EdgeInfoRec → Nat → GraphId → GraphId → Option Nat
  | [], _, _, _ => none
  | r :: rest, w, a, b =>
    if r.wayid = w ∧ r.a = a ∧ r.b = b then some 0
    else (findEdgeInfo rest w a b).map (fun i => i + 1)

/-- Modelled from the spec: `GraphTileBuilder::AddEdgeInfo(way_id, from,
to, way_id2, shape, names, added)`.  Returns the offset, the `added`
out-parameter (true iff the record is new), and the updated store. -/
def AddEdgeInfo (wayid : Nat) (x y : GraphId) (shape : List PointLL)
    (store : List EdgeInfoRec) : Nat × Bool × List EdgeInfoRec :=
  let a := if GraphId.leb x y then x else y
  let b := if GraphId.leb x y then y else x
  match findEdgeInfo store wayid a b with
  | some i => (i, false, store)
  | none => (store.length, true, store ++ [⟨wayid, a, b, shape⟩])

/-- `GetTransitUse` (transitbuilder.cc lines 250-265): bus for vehicle
type 3, rail for 0,1,2,5,6,7, rail (placeholder) for ferry (4), rail for
anything else. -/
def GetTransitUse (rt : Nat) : Use :=
  match rt with
  | 3 => Use.kBus
  | 4 => Use.kRail
  | _ => Use.kRail

/-- `GetShape` (transitbuilder.cc lines 267-338): the shape-table lookup
is commented out in the source; the live code returns the straight line
between the two stops. -/
def GetShape (stop_ll endstop_ll : PointLL) (_shapeid : Nat) : List PointLL :=
  [stop_ll, endstop_ll]

/-- State threaded through the tile rewrite of `AddToGraph`: the rebuilt
directed edges, the edge-info store, the sign and access-restriction
edge-index lists split into the already-updated prefix and the untouched
remainder (the source walks them with the `signidx`/`residx` cursors),
the `added_edges` counter, and the rebuilt road and transit nodes. -/
structure BuildState where
  dedges : List DirectedEdge
  einfos : List EdgeInfoRec
  updSigns : List Nat
  remSigns : List Nat
  updRests : List Nat
  remRests : List Nat
  added : Nat
  rnodes : List NodeInfo
  tnodes : List NodeInfo
deriving DecidableEq, Repr

/-- The sign / access-restriction fixup `while` loops of the road-node
pass (lines 421-445): every leading cursor entry equal to the current
old edge index `idx` is rewritten to `idx + added_edges`.  Returns the
newly updated entries and the remaining ones. -/
def fixRefs (idx added : Nat) : List Nat → List Nat × List Nat
  | [] => ([], [])
  | s :: rest =>
    if s = idx then
      let p := fixRefs idx added rest
      ((idx + added) :: p.1, p.2)
    else ([], s :: rest)

/-- The inner copy loop of the road-node pass (lines 416-446): append the
node's original outbound edges one by one, fixing up sign and
access-restriction edge indices as their cursors match.  `idx` is the
position in the old edge array, `cnt` the number of edges left to copy. -/
def copyNodeEdges (ce : List DirectedEdge) : Nat → Nat → BuildState → BuildState
  | _, 0, s => s
  | idx, Nat.succ cnt, s =>
    let s1 : BuildState := { s with dedges := s.dedges ++ [ce.getD idx default] }
    let p := fixRefs idx s1.added s1.remSigns
    let s2 : BuildState := { s1 with updSigns := s1.updSigns ++ p.1, remSigns := p.2 }
    let q := fixRefs idx s2.added s2.remRests
    let s3 : BuildState := { s2 with updRests := s2.updRests ++ q.1, remRests := q.2 }
    copyNodeEdges ce (idx + 1) cnt s3

/-- The connection directed edge built by the road-node pass (lines
460-477) and by the reverse pass (lines 542-562): both use the same
field values. -/
def connDE (conn : OSMConnectionEdge) (endnode : GraphId) (local_idx offset : Nat)
    (fwd : Bool) : DirectedEdge :=
  { endnode := endnode
    length := conn.length
    use := Use.kTransitConnection
    speed := 5
    classification := RoadClass.kServiceOther
    localedgeidx := local_idx
    forwardaccess := kPedestrianAccess
    reverseaccess := kPedestrianAccess
    edgeinfo_offset := offset
    forward := fwd }

/-- The connection-edge `while` loop of the road-node pass (lines
450-483).  The source's `continue` on an unknown destination tile jumps
back to the loop condition without advancing `added_edges`, so the loop
re-tests the same connection; `fuel` makes that non-termination explicit:
the model returns `none` exactly when the loop runs out of fuel, and the
caller provides more fuel than any terminating run can consume. -/
def connLoop (conns : List OSMConnectionEdge) (tnc : List (GraphId × Nat))
    (nodeid edge_index : Nat) : Nat → BuildState → Option BuildState
  | 0, _ => none
  | Nat.succ fuel, s =>
    if s.added < conns.length ∧ (conns.getD s.added default).osm_node.id = nodeid then
      let conn := conns.getD s.added default
      let endnode := GetGraphId conn.stop_node tnc
      if endnode = GraphId.invalid then
        connLoop conns tnc nodeid edge_index fuel s
      else
        let r := AddEdgeInfo 0 conn.osm_node endnode conn.shape s.einfos
        let de := connDE conn endnode (s.dedges.length - edge_index) r.1 r.2.1
        connLoop conns tnc nodeid edge_index fuel
          { s with dedges := s.dedges ++ [de], einfos := r.2.2, added := s.added + 1 }
    else some s

/-- The road-node pass of `AddToGraph` (lines 410-490): for each original
node, copy its outbound edges (fixing sign/restriction indices), run the
connection-edge loop, then append the node with its new edge index and
count. -/
def roadPass (ce : List DirectedEdge) (conns : List OSMConnectionEdge)
    (tnc : List (GraphId × Nat)) : List NodeInfo → Nat → BuildState → Option BuildState
  | [], _, s => some s
  | nb :: rest, nodeid, s =>
    let edge_index := s.dedges.length
    let s1 := copyNodeEdges ce nb.edge_index nb.edge_count s
    match connLoop conns tnc nodeid edge_index (conns.length + 1) s1 with
    | none => none
    | some s2 =>
      roadPass ce conns tnc rest (nodeid + 1)
        { s2 with
            rnodes := s2.rnodes ++
              [{ nb with edge_index := edge_index,
                         edge_count := s2.dedges.length - edge_index }] }

/-- Latitude/longitude of a stop by index in a stop list (protobuf
`transit.stops(i)`; an out-of-range index aborts in the source and is
`none` here). -/
def endStopLL (sts : List TransitStop) (i : Nat) : Option PointLL :=
  (sts.get? i).map (fun st => (st.lon, st.lat))

/-- The reverse connection loop of the transit-node pass (lines 538-565):
a linear scan over all connection edges emitting one edge from the stop
back to the road node for each connection whose `stop_node` equals this
stop. -/
def revConnLoop (stopid origin_node : GraphId) (node_edge_index : Nat) :
    List OSMConnectionEdge → BuildState → BuildState
  | [], s => s
  | conn :: rest, s =>
    if conn.stop_node = stopid then
      let r := AddEdgeInfo 0 origin_node conn.osm_node conn.shape s.einfos
      let de := connDE conn conn.osm_node (s.dedges.length - node_edge_index) r.1 r.2.1
      revConnLoop stopid origin_node node_edge_index rest
        { s with dedges := s.dedges ++ [de], einfos := r.2.2 }
    else revConnLoop stopid origin_node node_edge_index rest s

/-- The transit-line loop of the transit-node pass (lines 616-672).  A
line whose destination tile is unknown is skipped (a `for`-loop
`continue`, which does advance).  A missing destination stop record or
an absent entry in `route_types` is a protobuf abort / undefined
dereference in the source and is `none` here.  `dist` abstracts
`PointLL::Distance`. -/
def lineLoop (tileid : GraphId) (stops : List TransitStop)
    (pbfs : List (GraphId × List TransitStop)) (tnc : List (GraphId × Nat))
    (route_types : List (Nat × Nat)) (dist : PointLL → PointLL → Rat)
    (stopll : PointLL) (origin_node : GraphId) (node_edge_index : Nat) :
    List TransitLine → BuildState → Option BuildState
  | [], s => some s
  | ln :: rest, s =>
    let endnode := GetGraphId ln.dest_pbf_graphid tnc
    if endnode = GraphId.invalid then
      lineLoop tileid stops pbfs tnc route_types dist stopll origin_node node_edge_index rest s
    else
      let endllq :=
        if ln.dest_pbf_graphid.tileBase = tileid then
          endStopLL stops ln.dest_pbf_graphid.id
        else
          match alookup pbfs ln.dest_pbf_graphid.tileBase with
          | none => none
          | some sts => endStopLL sts ln.dest_pbf_graphid.id
      match endllq with
      | none => none
      | some endll =>
        match alookup route_types ln.routeid with
        | none => none
        | some rt =>
          let r := AddEdgeInfo ln.routeid origin_node endnode
            (GetShape stopll endll ln.shapeid) s.einfos
          let de : DirectedEdge :=
            { endnode := endnode
              length := dist stopll endll
              use := GetTransitUse rt
              speed := 5
              classification := RoadClass.kServiceOther
              localedgeidx := s.dedges.length - node_edge_index
              forwardaccess := kPedestrianAccess
              reverseaccess := kPedestrianAccess
              edgeinfo_offset := r.1
              forward := r.2.1
              lineid := ln.lineid }
          lineLoop tileid stops pbfs tnc route_types dist stopll origin_node node_edge_index
            rest { s with dedges := s.dedges ++ [de], einfos := r.2.2 }

/-- The transit-node pass of `AddToGraph` (lines 498-684): for each entry
of the stop edge map, build the stop's node (pedestrian access; the
bicycle-access block is commented out in the source), emit its reverse
connection edges and its transit-line edges, and append the node with its
edge count (the source logs when the count is zero but appends the node
regardless). -/
def transitPass (tileid : GraphId) (stops : List TransitStop)
    (pbfs : List (GraphId × List TransitStop)) (conns : List OSMConnectionEdge)
    (tnc : List (GraphId × Nat)) (route_types : List (Nat × Nat))
    (dist : PointLL → PointLL → Rat) :
    List (GraphId × StopEdges) → BuildState → Option BuildState
  | [], s => some s
  | (_, se) :: rest, s =>
    let stopid := se.origin_pbf_graphid
    let stop_index := stopid.id
    match stops.get? stop_index with
    | none => none
    | some stop =>
      let origin_node := GetGraphId stopid tnc
      let stopll : PointLL := (stop.lon, stop.lat)
      let edge_index := s.dedges.length
      let node : NodeInfo :=
        { latlng := stopll
          classification := RoadClass.kServiceOther
          access := kPedestrianAccess
          ntype := NodeType.kMultiUseTransitStop
          traffic_signal := false
          child := false
          parent := false
          mode_change := true
          stop_index := stop_index
          timezone := stop.timezone
          edge_index := edge_index }
      let s1 := revConnLoop stopid origin_node edge_index conns s
      match lineLoop tileid stops pbfs tnc route_types dist stopll origin_node edge_index
          se.lines s1 with
      | none => none
      | some s2 =>
        transitPass tileid stops pbfs conns tnc route_types dist rest
          { s2 with
              tnodes := s2.tnodes ++
                [{ node with edge_count := s2.dedges.length - edge_index }] }

/-- The rebuilt tile produced by `AddToGraph`: nodes (road nodes first,
in their original order, then the appended transit nodes), directed
edges, the sign and access-restriction edge-index tables, and the
edge-info store. -/
structure TileOut where
  nodes : List NodeInfo
  dedges : List DirectedEdge
  signs : List Nat
  rests : List Nat
  einfos : List EdgeInfoRec
deriving DecidableEq, Repr

instance : Inhabited TileOut := ⟨⟨[], [], [], [], []⟩⟩

/-- `AddToGraph` (transitbuilder.cc lines 373-700).  `currentnodes`,
`currentedges`, `signs` and `rests` are the moved-out arrays of the tile
builder; `pbfs` maps tile bases to their transit stop lists (the
`read_pbf` calls; a missing file throws in the source and is `none`
here); `_stop_access` is received and, as in the source, never used. -/
def AddToGraphM (tileid : GraphId) (currentnodes : List NodeInfo)
    (currentedges : List DirectedEdge) (signs rests : List Nat)
    (pbfs : List (GraphId × List TransitStop)) (tnc : List (GraphId × Nat))
    (sem : List (GraphId × StopEdges)) (_stop_access : List (GraphId × Bool))
    (conns : List OSMConnectionEdge) (route_types : List (Nat × Nat))
    (dist : PointLL → PointLL → Rat) : Option TileOut :=
  match alookup pbfs tileid with
  | none => none
  | some stops =>
    match roadPass currentedges conns tnc currentnodes 0
        ⟨[], [], [], signs, [], rests, 0, [], []⟩ with
    | none => none
    | some s1 =>
      match transitPass tileid stops pbfs conns tnc route_types dist sem s1 with
      | none => none
      | some s2 =>
        some ⟨s2.rnodes ++ s2.tnodes, s2.dedges, s2.updSigns ++ s2.remSigns,
          s2.updRests ++ s2.remRests, s2.einfos⟩

/-- Non-decreasing order of a list under a Nat key. -/
def sortedBy {α : Type} (f : α → Nat) : List α → Bool
  | [] => true
  | [_] => true
  | a :: b :: r => decide (f a ≤ f b) && sortedBy f (b :: r)

/-- Strictly increasing order of a Nat list. -/
def sortedLt : List Nat → Bool
  | [] => true
  | [_] => true
  | a :: b :: r => decide (a < b) && sortedLt (b :: r)

/-- The standard tile layout invariant on the input nodes: walking the
node list with a running base, every node's `edge_index` equals the base
and the base advances by its `edge_count`. -/
def nodesPartitionFrom : List NodeInfo → Nat → Bool
  | [], _ => true
  | nb :: rest, base => decide (nb.edge_index = base) && nodesPartitionFrom rest (base + nb.edge_count)

/-- Sum of the `edge_count` fields of a node list. -/
def sumCounts : List NodeInfo → Nat
  | [] => 0
  | nb :: rest => nb.edge_count + sumCounts rest

/-- Contiguity check of a rebuilt node list: node `k`'s edges occupy
`[edge_index, edge_index + edge_count)` and node `k+1` starts where node
`k` ends. -/
def contigB : List NodeInfo → Nat → Bool
  | [], _ => true
  | nb :: rest, start => decide (nb.edge_index = start) && contigB rest (start + nb.edge_count)

/-- Index of the road node at which old edge `e` originates: the number
of nodes whose edge range ends at or before `e`. -/
def nodeOfEdge (nodes : List NodeInfo) (e : Nat) : Nat :=
  nodes.countP (fun nb => decide (nb.edge_index + nb.edge_count ≤ e))

/-- The number of connection edges inserted at road nodes whose index is
strictly less than the index of the road node at which old edge `e`
originates. -/
def connsBefore (nodes : List NodeInfo) (conns : List OSMConnectionEdge) (e : Nat) : Nat :=
  conns.countP (fun c => decide (c.osm_node.id < nodeOfEdge nodes e))

/-- Number of distinct elements of `l` that are not in `seen`, counting
each value once. -/
def numDistinctFrom {α : Type} [DecidableEq α] (seen : List α) : List α → Nat
  | [] => 0
  | a :: r => if a ∈ seen then numDistinctFrom seen r else 1 + numDistinctFrom (a :: seen) r

/-- Number of distinct elements of a list. -/
def numDistinct {α : Type} [DecidableEq α] (l : List α) : Nat := numDistinctFrom [] l

/-- All line ids allocated in a stop edge map, in order. -/
def allLineIds : List (GraphId × StopEdges) → List Nat
  | [] => []
  | p :: rest => p.2.lines.map (fun l => l.lineid) ++ allLineIds rest

/-- The (route, destination) key of a departure, as deduplicated by the
stop loop of `build`. -/
def depKey (d : Departure) : Nat × GraphId := (d.route, d.dest_pbf_graphid)

/-- The fields of a node that the road-node pass copies through
unchanged (everything except `edge_index` and `edge_count`). -/
def nodeCore (n : NodeInfo) :
    PointLL × RoadClass × Nat × NodeType × Bool × Bool × Bool × Bool × Nat × Nat :=
  (n.latlng, n.classification, n.access, n.ntype, n.traffic_signal, n.child, n.parent,
    n.mode_change, n.stop_index, n.timezone)

/-- Concrete input of claim C1: a tile with a single road node (index 0,
no outbound edges) and a single connection edge at that node whose stop
lives in tile base (9,2,0), which is absent from `tile_node_counts`. -/
def c1conn : OSMConnectionEdge := ⟨⟨5, 2, 0⟩, ⟨9, 2, 3⟩, 1, []⟩

/-- The C1 tile base. -/
def c1tile : GraphId := ⟨5, 2, 0⟩

/-- The C1 road node. -/
def c1node : NodeInfo := {}

/-- The build state at entry of the C1 connection loop. -/
def c1state : BuildState := ⟨[], [], [], [], [], [], 0, [], []⟩

/-- Concrete stop pair of claim C2: service on exactly one day (the
pivot date, a Wednesday, with tile reference date 0), and an exception
date removing that same day. -/
def c2sp : StopPair :=
  { origin_graphid := ⟨1, 2, 0⟩
    destination_graphid := ⟨1, 2, 1⟩
    service_days_of_week := [false, false, true, false, false, false, false]
    service_start_date := 2456659
    service_end_date := 2456659
    service_except_dates := [2456659] }

/-- The C2 transit tile: one stop pair, two stops. -/
def c2transit : Transit :=
  { stops := [{ graphid := ⟨1, 2, 0⟩ }, { graphid := ⟨1, 2, 1⟩ }]
    stop_pairs := [c2sp] }

/-- Concrete transit tile of claim C8: two stops and no stop pairs. -/
def c8transit : Transit :=
  { stops := [{ graphid := ⟨5, 2, 0⟩ }, { graphid := ⟨5, 2, 1⟩ }] }

/-- Shared concrete tile for the AddToGraph witnesses: tile base (1,2,0),
one road node with one outbound edge, one stop at index 0. -/
def wTile : GraphId := ⟨1, 2, 0⟩

/-- The witness tile's stop. -/
def wStop : TransitStop := { graphid := ⟨1, 2, 0⟩, lon := 3, lat := 4, timezone := 7 }

/-- The witness tile's road node: one outbound edge starting at 0. -/
def wNode : NodeInfo := { edge_count := 1 }

/-- The witness tile's original directed edge, carrying an exit sign and
an access restriction. -/
def wEdge : DirectedEdge := { endnode := ⟨1, 2, 0⟩, exitsign := true, access_restriction := true }

/-- The witness tile's connection edge: road node 0 to stop (1,2,0). -/
def wConn : OSMConnectionEdge := ⟨⟨1, 2, 0⟩, ⟨1, 2, 0⟩, 1, [(0, 0), (3, 4)]⟩

/-- The witness tile's stop edge map: one stop with one line to itself on
route 0. -/
def wSem : List (GraphId × StopEdges) :=
  [(⟨1, 2, 0⟩, ⟨⟨1, 2, 0⟩, [], [⟨1, 0, ⟨1, 2, 0⟩, 0⟩]⟩)]

/-- The witness run of the AddToGraph model. -/
def wRun : Option TileOut :=
  AddToGraphM wTile [wNode] [wEdge] [0] [0] [(wTile, [wStop])] [(wTile, 1)] wSem []
    [wConn] [(0, 3)] (fun _ _ => 5)

/-- The witness tile rewrite result. -/
def wOut : TileOut := wRun.getD default

/-- Concrete shape-length function for the C7 witness: the number of
shape points. -/
def c7len : List PointLL → Rat := fun l => (l.length : Rat)

/-- Concrete emission run for the C7 witness: the stop shares a tile
base with the start node only. -/
def c7res : List OSMConnectionEdge :=
  AddOSMConnectionEmit ⟨1, 2, 0⟩ (0, 0) ⟨1, 2, 5⟩ ⟨2, 2, 6⟩ [(1, 1), (2, 2)] (1, 1) 0 c7len

/-- The single connection emitted in the C7 witness run. -/
def c7c : OSMConnectionEdge := c7res.getD 0 default

/-- Concrete departure for the C10 witness: the arrival time is smaller
than the departure time, so the stored elapsed time wraps. -/
def c10dep : Departure :=
  { days := 1, orig_pbf_graphid := ⟨1, 2, 0⟩, dest_pbf_graphid := ⟨1, 2, 0⟩, trip := 0,
    route := 0, blockid := 0, shapeid := 0, dep_time := 10, arr_time := 5, end_day := 0,
    dow := 0, headsign := "" }

/-- Concrete departure for the C5 witness: route 0 to the stop itself. -/
def c5dep : Departure :=
  { days := 1, orig_pbf_graphid := ⟨1, 2, 0⟩, dest_pbf_graphid := ⟨1, 2, 0⟩, trip := 0,
    route := 0, blockid := 0, shapeid := 0, dep_time := 3, arr_time := 9, end_day := 0,
    dow := 0, headsign := "" }

/-- The departure multimap of the C5 witness. -/
def c5deps : List (GraphId × Departure) := [(⟨1, 2, 0⟩, c5dep)]

/-- The stop-loop run of the C5 witness. -/
def c5out : StopLoopState := buildStopLoop [wStop] c5deps []

/-! ### Theorems -/

/-- Claim C6: for every stop source id and every `tile_node_counts` map,
if the id's tile base is a key of the map then `GetGraphId` returns the
GraphId (tile, level, idx + count); otherwise it returns the invalid
sentinel. -/
theorem C6_get_graph_id (n : GraphId) (tnc : List (GraphId × Nat)) (c : Nat) :
    (alookup tnc n.tileBase = some c →
      GetGraphId n tnc = ⟨n.tileid, n.level, n.id + c⟩) ∧
    (alookup tnc n.tileBase = none → GetGraphId n tnc = GraphId.invalid) := by
  constructor <;> intro h <;> simp [GetGraphId, h]

/-- Witness for C6 at a concrete id and map. -/
theorem C6_witness :
    GetGraphId ⟨3, 2, 4⟩ [(⟨3, 2, 0⟩, 10)] = ⟨3, 2, 14⟩ ∧
    GetGraphId ⟨7, 2, 4⟩ [] = GraphId.invalid :=
  ⟨(C6_get_graph_id ⟨3, 2, 4⟩ [(⟨3, 2, 0⟩, 10)] 10).1 (by decide),
   (C6_get_graph_id ⟨7, 2, 4⟩ [] 0).2 (by decide)⟩

/-- Claim C1 (the code diverges instead): with a connection edge whose
destination tile base is missing from `tile_node_counts` at the head of
the queue for road node 0, the connection `while` loop of the road-node
pass re-tests the same connection forever (`none` for every fuel), and
the tile rewrite never completes. -/
theorem C1_road_pass_diverges :
    (∀ fuel : Nat, connLoop [c1conn] [] 0 0 fuel c1state = none) ∧
    AddToGraphM c1tile [c1node] [] [] [] [(c1tile, [])] [] [] [] [c1conn] []
      (fun _ _ => 0) = none := by
  constructor
  · intro fuel
    induction fuel with
    | zero => rfl
    | succ n ih =>
      show connLoop [c1conn] [] 0 0 (n + 1) c1state = none
      rw [connLoop]
      have h1 : c1state.added < [c1conn].length ∧
          ([c1conn].getD c1state.added default).osm_node.id = 0 := by decide
      rw [if_pos h1]
      have h2 : GetGraphId ([c1conn].getD c1state.added default).stop_node [] =
          GraphId.invalid := by decide
      rw [if_pos h2]
      exact ih
  · rfl

/-- Claim C8 as stated is false: on a tile with two stops and zero stop
pairs the extraction emits the message at ERROR severity, not as a
warning. -/
theorem C8_counterexample :
    (ProcessStopPairs c8transit 7 [] ⟨5, 2, 0⟩).logs =
      [⟨Sev.error, "Tile 5 has 0 schedule stop pairs but has 2 stops"⟩] ∧
    (ProcessStopPairs c8transit 7 [] ⟨5, 2, 0⟩).departures = [] ∧
    Sev.error ≠ Sev.warn := by
  refine ⟨?_, ?_, by decide⟩ <;> rfl

/-- Claim C8, amended: for every transit tile with zero stop pairs and a
nonzero number of stops, the extraction logs (at ERROR severity) exactly
the message "Tile T has 0 schedule stop pairs but has N stops" with N
the stop count, returns an empty departures map, and does not abort. -/
theorem C8_amended (transit : Transit) (td : Nat) (sa : List (GraphId × Bool))
    (tid : GraphId) (h0 : transit.stop_pairs.length = 0) (h1 : 0 < transit.stops.length) :
    (ProcessStopPairs transit td sa tid).departures = [] ∧
    (ProcessStopPairs transit td sa tid).logs =
      [⟨Sev.error,
        "Tile " ++ toString tid.tileid ++ " has 0 schedule stop pairs but has " ++
          toString transit.stops.length ++ " stops"⟩] := by
  simp [ProcessStopPairs, h0, h1]

/-- Witness for C8 at the concrete tile. -/
theorem C8_witness :
    (ProcessStopPairs c8transit 7 [] ⟨5, 2, 0⟩).departures = [] ∧
    (ProcessStopPairs c8transit 7 [] ⟨5, 2, 0⟩).logs =
      [⟨Sev.error,
        "Tile " ++ toString (5 : Nat) ++ " has 0 schedule stop pairs but has " ++
          toString (2 : Nat) ++ " stops"⟩] :=
  C8_amended c8transit 7 [] ⟨5, 2, 0⟩ (by decide) (by decide)

/-- Every departure accumulated by the stop-pair fold comes from a stop
pair whose initial days bitmap (before exceptions) is nonzero. -/
theorem psp_fold_mem (td : Nat) :
    ∀ (sps : List StopPair) (st : PSPOut) (p : GraphId × Departure),
      p ∈ (sps.foldl (pspStep td) st).departures →
      p ∈ st.departures ∨
        ∃ sp ∈ sps, initialDays td sp ≠ 0 ∧ p = (sp.origin_graphid, mkDeparture td sp) := by
  intro sps
  induction sps with
  | nil => intro st p hp; exact Or.inl hp
  | cons sp r ih =>
    intro st p hp
    rcases ih (pspStep td st sp) p hp with h | ⟨sp2, hsp2, h1, h2⟩
    · by_cases hz : initialDays td sp = 0
      · simp only [pspStep, if_pos hz] at h
        exact Or.inl h
      · simp only [pspStep, if_neg hz, List.mem_append, List.mem_singleton] at h
        rcases h with h | h
        · exact Or.inl h
        · exact Or.inr ⟨sp, List.mem_cons_self sp r, hz, h⟩
    · exact Or.inr ⟨sp2, List.mem_cons_of_mem sp hsp2, h1, h2⟩

/-- Claim C2 as stated is false: on the concrete tile `c2transit` (one
service day, removed again by an exception date) the extraction stores
exactly one departure and its days bitmap is zero. -/
theorem C2_counterexample :
    (ProcessStopPairs c2transit 0 [] ⟨1, 2, 0⟩).departures.map (fun p => p.2.days) = [0] := by
  rfl

/-- Claim C2, amended: every stored departure comes from a stop pair
whose initial days bitmap — computed from the DOW mask and date range,
before exception dates are applied — is nonzero (pairs with a zero
initial bitmap are dropped); the stored record carries the bitmap after
exception subtractions and additions, which may be zero. -/
theorem C2_amended (transit : Transit) (td : Nat) (sa : List (GraphId × Bool))
    (tid : GraphId) (p : GraphId × Departure)
    (hp : p ∈ (ProcessStopPairs transit td sa tid).departures) :
    ∃ sp ∈ transit.stop_pairs, initialDays td sp ≠ 0 ∧
      p = (sp.origin_graphid, mkDeparture td sp) := by
  by_cases h0 : transit.stop_pairs.length = 0
  · by_cases h1 : 0 < transit.stops.length <;>
      simp [ProcessStopPairs, h0, h1] at hp
  · simp only [ProcessStopPairs, if_neg h0] at hp
    rcases psp_fold_mem td transit.stop_pairs ⟨[], sa, []⟩ p hp with h | h
    · simp at h
    · exact h

/-- Witness for C2 at the concrete tile: the stored departure satisfies
the amended property. -/
theorem C2_witness :
    ∃ sp ∈ c2transit.stop_pairs, initialDays 0 sp ≠ 0 ∧
      ((ProcessStopPairs c2transit 0 [] ⟨1, 2, 0⟩).departures.getD 0 default) =
        (sp.origin_graphid, mkDeparture 0 sp) :=
  C2_amended c2transit 0 [] ⟨1, 2, 0⟩ _ (by decide)

/-- Claim C7: for a stop whose closest matching edge has been found, a
connection to the start node is emitted iff the stop's tile base equals
the start node's; a connection to the end node is emitted iff the stop's
tile base equals the end node's and both nodes share a tile id; and every
emitted connection targets this stop and has length equal to the geodesic
length of its shape floored at 1 (in particular length 1 whenever the
shape length is at most 1, e.g. a stop coinciding with a road node). -/
theorem C7_connection_emission (stop : GraphId) (stop_ll : PointLL)
    (startnode endnode : GraphId) (cs : List PointLL) (cp : PointLL) (ci : Nat)
    (len : List PointLL → Rat) :
    ((∃ c ∈ AddOSMConnectionEmit stop stop_ll startnode endnode cs cp ci len,
        c.osm_node = startnode) ↔ stop.tileBase = startnode.tileBase) ∧
    ((∃ c ∈ AddOSMConnectionEmit stop stop_ll startnode endnode cs cp ci len,
        c.osm_node = endnode) ↔
      (stop.tileBase = endnode.tileBase ∧ startnode.tileid = endnode.tileid)) ∧
    (∀ c ∈ AddOSMConnectionEmit stop stop_ll startnode endnode cs cp ci len,
      c.stop_node = stop ∧ c.length = max 1 (len c.shape)) ∧
    (∀ c ∈ AddOSMConnectionEmit stop stop_ll startnode endnode cs cp ci len,
      len c.shape ≤ 1 → c.length = 1) := by
  have hres : AddOSMConnectionEmit stop stop_ll startnode endnode cs cp ci len =
      (if stop.tileBase = startnode.tileBase then
        [⟨startnode, stop, max 1 (len (cs.take (ci + 1) ++ [cp, stop_ll])),
          cs.take (ci + 1) ++ [cp, stop_ll]⟩]
      else []) ++
      (if stop.tileBase = endnode.tileBase ∧ startnode.tileid = endnode.tileid then
        [⟨endnode, stop, max 1 (len ((cs.drop (ci + 1)).reverse ++ [cp, stop_ll])),
          (cs.drop (ci + 1)).reverse ++ [cp, stop_ll]⟩]
      else []) := rfl
  have hfloor : ∀ c ∈ AddOSMConnectionEmit stop stop_ll startnode endnode cs cp ci len,
      c.stop_node = stop ∧ c.length = max 1 (len c.shape) := by
    rw [hres]
    intro c hc
    rcases List.mem_append.mp hc with h | h <;> split at h <;> simp_all
  refine ⟨?_, ?_, hfloor, ?_⟩
  · constructor
    · rintro ⟨c, hc, hco⟩
      rw [hres] at hc
      rcases List.mem_append.mp hc with h | h
      · split at h
        · assumption
        · simp at h
      · split at h
        · rename_i h2
          simp only [List.mem_singleton] at h
          subst h
          simp only at hco
          subst hco
          have : stop.tileBase = endnode.tileBase := h2.1
          rw [this]
        · simp at h
    · intro h1
      rw [hres, if_pos h1]
      exact ⟨_, List.mem_append.mpr (Or.inl (List.mem_singleton.mpr rfl)), rfl⟩
  · constructor
    · rintro ⟨c, hc, hco⟩
      rw [hres] at hc
      rcases List.mem_append.mp hc with h | h
      · split at h
        · rename_i h1
          simp only [List.mem_singleton] at h
          subst h
          simp only at hco
          subst hco
          exact ⟨h1, rfl⟩
        · simp at h
      · split at h
        · assumption
        · simp at h
    · intro h2
      rw [hres, if_pos h2]
      exact ⟨_, List.mem_append.mpr (Or.inr (List.mem_singleton.mpr rfl)), rfl⟩
  · intro c hc hle
    have := (hfloor c hc).2
    rw [this]
    exact max_eq_left hle

/-- Witness for C7 at a concrete emission run. -/
theorem C7_witness : c7c.stop_node = ⟨1, 2, 0⟩ ∧ c7c.length = max 1 (c7len c7c.shape) :=
  (C7_connection_emission ⟨1, 2, 0⟩ (0, 0) ⟨1, 2, 5⟩ ⟨2, 2, 6⟩ [(1, 1), (2, 2)] (1, 1) 0
    c7len).2.2.1 c7c (by decide)

/-- Every transit departure accumulated by the per-stop departure fold is
`mkTransitDeparture` of one of the folded departures. -/
theorem depFold_tds_mem :
    ∀ (ds : List Departure) (a : DepAcc) (td : TransitDeparture),
      td ∈ (ds.foldl depStep a).tds →
      td ∈ a.tds ∨ ∃ lid hso d, d ∈ ds ∧ td = mkTransitDeparture lid hso d := by
  intro ds
  induction ds with
  | nil => intro a td h; exact Or.inl h
  | cons d r ih =>
    intro a td h
    rcases ih (depStep a d) td h with h1 | ⟨lid, hso, d2, hd2, he⟩
    · cases hm : alookup a.umap (d.route, d.dest_pbf_graphid) with
      | none =>
        simp only [depStep, hm, AddName, List.mem_append, List.mem_singleton] at h1
        rcases h1 with h1 | h1
        · exact Or.inl h1
        · exact Or.inr ⟨a.uniq, a.names.length, d, List.mem_cons_self d r, h1⟩
      | some lid2 =>
        simp only [depStep, hm, AddName, List.mem_append, List.mem_singleton] at h1
        rcases h1 with h1 | h1
        · exact Or.inl h1
        · exact Or.inr ⟨lid2, a.names.length, d, List.mem_cons_self d r, h1⟩
    · exact Or.inr ⟨lid, hso, d2, List.mem_cons_of_mem d hd2, he⟩

/-- Every transit departure emitted by the stop loop is
`mkTransitDeparture` of one of the departures of the multimap. -/
theorem stopLoop_tds_mem :
    ∀ (stops : List TransitStop) (deps : List (GraphId × Departure))
      (st : StopLoopState) (td : TransitDeparture),
      td ∈ (stops.foldl (stopStep deps) st).tds →
      td ∈ st.tds ∨
        ∃ lid hso d, (∃ g, (g, d) ∈ deps) ∧ td = mkTransitDeparture lid hso d := by
  intro stops
  induction stops with
  | nil => intro deps st td h; exact Or.inl h
  | cons stop r ih =>
    intro deps st td h
    rcases ih deps (stopStep deps st stop) td h with h1 | h1
    · simp only [stopStep, List.mem_append] at h1
      rcases h1 with h1 | h1
      · exact Or.inl h1
      · rcases depFold_tds_mem _ _ td h1 with h2 | ⟨lid, hso, d, hd, he⟩
        · simp at h2
        · rcases List.mem_map.mp hd with ⟨p, hp, hpd⟩
          exact Or.inr ⟨lid, hso, d, ⟨p.1, by
            have := List.mem_of_mem_filter hp
            rwa [show (p.1, d) = p from by rw [← hpd]]⟩, he⟩
    · exact Or.inr h1

/-- Claim C10: every compacted transit departure produced by the stop
loop is `mkTransitDeparture` of a kept departure, and the stored elapsed
time equals (arrival − departure) modulo 2^32: the exact difference when
the arrival time is at least the departure time, and the wrapped
(nonnegative) value when it is smaller. -/
theorem C10_elapsed_time :
    (∀ (stops : List TransitStop) (deps : List (GraphId × Departure))
        (names0 : List String) (td : TransitDeparture),
      td ∈ (buildStopLoop stops deps names0).tds →
      ∃ lid hso d, (∃ g, (g, d) ∈ deps) ∧ td = mkTransitDeparture lid hso d) ∧
    (∀ (lid hso : Nat) (d : Departure),
      d.arr_time < 4294967296 → d.dep_time < 4294967296 →
      (mkTransitDeparture lid hso d).elapsed_time =
          (((d.arr_time : Int) - (d.dep_time : Int)) % 4294967296).toNat ∧
        (d.dep_time ≤ d.arr_time →
          (mkTransitDeparture lid hso d).elapsed_time = d.arr_time - d.dep_time) ∧
        (d.arr_time < d.dep_time →
          (mkTransitDeparture lid hso d).elapsed_time =
            4294967296 + d.arr_time - d.dep_time)) := by
  constructor
  · intro stops deps names0 td h
    rcases stopLoop_tds_mem stops deps _ td h with h1 | h1
    · simp at h1
    · exact h1
  · intro lid hso d ha hd
    simp only [mkTransitDeparture]
    omega

/-- Witness for C10 at a concrete wrapped departure. -/
theorem C10_witness :
    (mkTransitDeparture 1 0 c10dep).elapsed_time = 4294967296 + 5 - 10 :=
  ((C10_elapsed_time.2 1 0 c10dep (by decide) (by decide)).2.2) (by decide)

/-- A `getD` access yields a member of the list or the default. -/
theorem getD_mem_or {α : Type} : ∀ (l : List α) (i : Nat) (d : α),
    l.getD i d ∈ l ∨ l.getD i d = d := by
  intro l
  induction l with
  | nil => intro i d; right; cases i <;> rfl
  | cons a t ih =>
    intro i d
    cases i with
    | zero => left; exact List.mem_cons_self a t
    | succ n =>
      rcases ih n d with h | h
      · left; exact List.mem_cons_of_mem a (by simpa using h)
      · right; simpa using h

/-- `sumCounts` distributes over append. -/
theorem sumCounts_append : ∀ (a b : List NodeInfo),
    sumCounts (a ++ b) = sumCounts a + sumCounts b := by
  intro a b
  induction a with
  | nil => simp [sumCounts]
  | cons n t ih => simp [sumCounts, ih]; omega


/-- `contigB` splits over append. -/
theorem contigB_append : ∀ (a b : List NodeInfo) (start : Nat),
    contigB (a ++ b) start = (contigB a start && contigB b (start + sumCounts a)) := by
  intro a
  induction a with
  | nil => intro b start; simp [contigB, sumCounts]
  | cons n t ih =>
    intro b start
    show (decide (n.edge_index = start) && contigB (t ++ b) (start + n.edge_count)) = _
    rw [ih]
    show _ = ((decide (n.edge_index = start) && contigB t (start + n.edge_count)) &&
      contigB b (start + (n.edge_count + sumCounts t)))
    rw [Nat.add_assoc, Bool.and_assoc]

/-- One unfolding step of the copy loop. -/
theorem copyNodeEdges_succ (ce : List DirectedEdge) (idx cnt : Nat) (s : BuildState) :
    copyNodeEdges ce idx (cnt + 1) s =
      copyNodeEdges ce (idx + 1) cnt
        { s with
            dedges := s.dedges ++ [ce.getD idx default]
            updSigns := s.updSigns ++ (fixRefs idx s.added s.remSigns).1
            remSigns := (fixRefs idx s.added s.remSigns).2
            updRests := s.updRests ++ (fixRefs idx s.added s.remRests).1
            remRests := (fixRefs idx s.added s.remRests).2 } := rfl

/-- Structural facts about the copy loop: it appends exactly
`edge_count` edges (members of the old edge array or the default), and
touches neither the counters nor the node lists nor the edge-info
store. -/
theorem copyNodeEdges_basic (ce : List DirectedEdge) :
    ∀ (cnt idx : Nat) (s : BuildState),
      (copyNodeEdges ce idx cnt s).dedges.length = s.dedges.length + cnt ∧
      (copyNodeEdges ce idx cnt s).added = s.added ∧
      (copyNodeEdges ce idx cnt s).einfos = s.einfos ∧
      (copyNodeEdges ce idx cnt s).rnodes = s.rnodes ∧
      (copyNodeEdges ce idx cnt s).tnodes = s.tnodes ∧
      (∀ e ∈ (copyNodeEdges ce idx cnt s).dedges, e ∈ s.dedges ∨ e ∈ ce ∨ e = default) := by
  intro cnt
  induction cnt with
  | zero => intro idx s; exact ⟨rfl, rfl, rfl, rfl, rfl, fun e he => Or.inl he⟩
  | succ cnt ih =>
    intro idx s
    rw [copyNodeEdges_succ]
    rcases ih (idx + 1)
        { s with
            dedges := s.dedges ++ [ce.getD idx default]
            updSigns := s.updSigns ++ (fixRefs idx s.added s.remSigns).1
            remSigns := (fixRefs idx s.added s.remSigns).2
            updRests := s.updRests ++ (fixRefs idx s.added s.remRests).1
            remRests := (fixRefs idx s.added s.remRests).2 } with
      ⟨h1, h2, h3, h4, h5, h6⟩
    refine ⟨?_, h2, h3, h4, h5, ?_⟩
    · rw [h1]; simp only [List.length_append, List.length_singleton]; omega
    · intro e he
      rcases h6 e he with h | h | h
      · rcases List.mem_append.mp h with h | h
        · exact Or.inl h
        · rcases getD_mem_or ce idx default with hg | hg
          · exact Or.inr (Or.inl (by rw [List.mem_singleton.mp h]; exact hg))
          · exact Or.inr (Or.inr (by rw [List.mem_singleton.mp h]; exact hg))
      · exact Or.inr (Or.inl h)
      · exact Or.inr (Or.inr h)

/-- Structural facts about the connection loop when it terminates: edges
only grow, the connection edges it appends are transit connections, and
the sign/restriction lists and node lists are untouched. -/
theorem connLoop_basic (conns : List OSMConnectionEdge) (tnc : List (GraphId × Nat))
    (nodeid ei : Nat) :
    ∀ (fuel : Nat) (s s' : BuildState), connLoop conns tnc nodeid ei fuel s = some s' →
      s.dedges.length ≤ s'.dedges.length ∧
      s'.updSigns = s.updSigns ∧ s'.remSigns = s.remSigns ∧
      s'.updRests = s.updRests ∧ s'.remRests = s.remRests ∧
      s'.rnodes = s.rnodes ∧ s'.tnodes = s.tnodes ∧
      (∀ e ∈ s'.dedges, e ∈ s.dedges ∨ e.use = Use.kTransitConnection) := by
  intro fuel
  induction fuel with
  | zero => intro s s' h; exact absurd h (by simp [connLoop])
  | succ fuel ih =>
    intro s s' h
    rw [connLoop] at h
    split at h
    · dsimp only at h
      split at h
      · exact ih s s' h
      · rcases ih _ s' h with ⟨h1, h2, h3, h4, h5, h6, h7, h8⟩
        refine ⟨?_, h2, h3, h4, h5, h6, h7, ?_⟩
        · refine le_trans ?_ h1
          simp
        · intro e he
          rcases h8 e he with h9 | h9
          · rcases List.mem_append.mp h9 with h9 | h9
            · exact Or.inl h9
            · right
              rw [List.mem_singleton.mp h9]
              rfl
          · exact Or.inr h9
    · cases h
      exact ⟨le_refl _, rfl, rfl, rfl, rfl, rfl, rfl, fun e he => Or.inl he⟩

/-- One unfolding step of the road-node pass. -/
theorem roadPass_cons (ce : List DirectedEdge) (conns : List OSMConnectionEdge)
    (tnc : List (GraphId × Nat)) (nb : NodeInfo) (rest : List NodeInfo)
    (nodeid : Nat) (s : BuildState) :
    roadPass ce conns tnc (nb :: rest) nodeid s =
      match connLoop conns tnc nodeid s.dedges.length (conns.length + 1)
          (copyNodeEdges ce nb.edge_index nb.edge_count s) with
      | none => none
      | some s2 =>
        roadPass ce conns tnc rest (nodeid + 1)
          { s2 with
              rnodes := s2.rnodes ++
                [{ nb with edge_index := s.dedges.length,
                           edge_count := s2.dedges.length - s.dedges.length }] } := rfl


/-- Structural facts about the road-node pass: the transit node list is
untouched, one rebuilt node is appended per input node with all fields
except the edge index and count preserved, edges only grow and consist of
old edges (or the zero default of an out-of-range copy) and transit
connections, and the rebuilt road nodes stay contiguous with the edge
array. -/
theorem roadPass_struct (ce : List DirectedEdge) (conns : List OSMConnectionEdge)
    (tnc : List (GraphId × Nat)) :
    ∀ (nbs : List NodeInfo) (k : Nat) (s s' : BuildState),
      roadPass ce conns tnc nbs k s = some s' →
      s'.tnodes = s.tnodes ∧
      s'.rnodes.map nodeCore = s.rnodes.map nodeCore ++ nbs.map nodeCore ∧
      s.dedges.length ≤ s'.dedges.length ∧
      (∀ e ∈ s'.dedges, e ∈ s.dedges ∨ e ∈ ce ∨ e = default ∨
        e.use = Use.kTransitConnection) ∧
      (contigB s.rnodes 0 = true → sumCounts s.rnodes = s.dedges.length →
        contigB s'.rnodes 0 = true ∧ sumCounts s'.rnodes = s'.dedges.length) := by
  intro nbs
  induction nbs with
  | nil =>
    intro k s s' h
    cases h
    exact ⟨rfl, by simp, le_refl _, fun e he => Or.inl he, fun h1 h2 => ⟨h1, h2⟩⟩
  | cons nb rest ih =>
    intro k s s' h
    rw [roadPass_cons] at h
    cases hc : connLoop conns tnc k s.dedges.length (conns.length + 1)
        (copyNodeEdges ce nb.edge_index nb.edge_count s) with
    | none => rw [hc] at h; cases h
    | some s2 =>
      rw [hc] at h
      rcases copyNodeEdges_basic ce nb.edge_count nb.edge_index s with ⟨c1, c2, c3, c4, c5, c6⟩
      rcases connLoop_basic conns tnc k s.dedges.length (conns.length + 1) _ s2 hc with
        ⟨d1, d2, d3, d4, d5, d6, d7, d8⟩
      rcases ih (k + 1) _ s' h with ⟨e1, e2, e3, e4, e5⟩
      dsimp only at e1 e2 e3 e4 e5
      have hrn : s2.rnodes = s.rnodes := by rw [d6, c4]
      have hlen : s.dedges.length ≤ s2.dedges.length := by
        calc s.dedges.length ≤ s.dedges.length + nb.edge_count := Nat.le_add_right _ _
        _ = (copyNodeEdges ce nb.edge_index nb.edge_count s).dedges.length := c1.symm
        _ ≤ s2.dedges.length := d1
      refine ⟨?_, ?_, ?_, ?_, ?_⟩
      · rw [e1, d7, c5]
      · rw [e2, hrn]
        simp [nodeCore]
      · exact le_trans hlen e3
      · intro e he
        rcases e4 e he with h9 | h9 | h9 | h9
        · rcases d8 e h9 with h10 | h10
          · rcases c6 e h10 with h11 | h11 | h11
            · exact Or.inl h11
            · exact Or.inr (Or.inl h11)
            · exact Or.inr (Or.inr (Or.inl h11))
          · exact Or.inr (Or.inr (Or.inr h10))
        · exact Or.inr (Or.inl h9)
        · exact Or.inr (Or.inr (Or.inl h9))
        · exact Or.inr (Or.inr (Or.inr h9))
      · intro h1 h2
        apply e5
        · rw [contigB_append, hrn, h1]
          simp [contigB, h2]
        · rw [sumCounts_append, hrn, h2]
          simp [sumCounts]
          omega

/-- Structural facts about the reverse connection loop: edges only grow
by transit connections; everything else except the edge-info store is
untouched. -/
theorem revConnLoop_basic (stopid origin_node : GraphId) (nei : Nat) :
    ∀ (cs : List OSMConnectionEdge) (s : BuildState),
      s.dedges.length ≤ (revConnLoop stopid origin_node nei cs s).dedges.length ∧
      (revConnLoop stopid origin_node nei cs s).updSigns = s.updSigns ∧
      (revConnLoop stopid origin_node nei cs s).remSigns = s.remSigns ∧
      (revConnLoop stopid origin_node nei cs s).updRests = s.updRests ∧
      (revConnLoop stopid origin_node nei cs s).remRests = s.remRests ∧
      (revConnLoop stopid origin_node nei cs s).rnodes = s.rnodes ∧
      (revConnLoop stopid origin_node nei cs s).tnodes = s.tnodes ∧
      (∀ e ∈ (revConnLoop stopid origin_node nei cs s).dedges,
        e ∈ s.dedges ∨ e.use = Use.kTransitConnection) := by
  intro cs
  induction cs with
  | nil =>
    intro s
    exact ⟨le_refl _, rfl, rfl, rfl, rfl, rfl, rfl, fun e he => Or.inl he⟩
  | cons conn rest ih =>
    intro s
    by_cases hcs : conn.stop_node = stopid
    · simp only [revConnLoop, if_pos hcs]
      refine ⟨le_trans (by simp) (ih _).1, (ih _).2.1, (ih _).2.2.1, (ih _).2.2.2.1,
        (ih _).2.2.2.2.1, (ih _).2.2.2.2.2.1, (ih _).2.2.2.2.2.2.1, ?_⟩
      intro e he
      rcases (ih _).2.2.2.2.2.2.2 e he with h | h
      · rcases List.mem_append.mp h with h | h
        · exact Or.inl h
        · right
          rw [List.mem_singleton.mp h]
          rfl
      · exact Or.inr h
    · simp only [revConnLoop, if_neg hcs]
      exact ih s

/-- Structural facts about the transit-line loop when it succeeds: edges
only grow, the appended edges carry the line ids of the processed lines,
and the sign lists and node lists are untouched. -/
theorem lineLoop_basic (tileid : GraphId) (stops : List TransitStop)
    (pbfs : List (GraphId × List TransitStop)) (tnc : List (GraphId × Nat))
    (rts : List (Nat × Nat)) (dist : PointLL → PointLL → Rat)
    (stopll : PointLL) (origin_node : GraphId) (nei : Nat) :
    ∀ (lns : List TransitLine) (s s' : BuildState),
      lineLoop tileid stops pbfs tnc rts dist stopll origin_node nei lns s = some s' →
      s.dedges.length ≤ s'.dedges.length ∧
      s'.updSigns = s.updSigns ∧ s'.remSigns = s.remSigns ∧
      s'.updRests = s.updRests ∧ s'.remRests = s.remRests ∧
      s'.rnodes = s.rnodes ∧ s'.tnodes = s.tnodes ∧
      (∀ e ∈ s'.dedges, e ∈ s.dedges ∨ ∃ ln ∈ lns, e.lineid = ln.lineid) := by
  intro lns
  induction lns with
  | nil =>
    intro s s' h
    cases h
    exact ⟨le_refl _, rfl, rfl, rfl, rfl, rfl, rfl, fun e he => Or.inl he⟩
  | cons ln rest ih =>
    intro s s' h
    rw [lineLoop] at h
    dsimp only at h
    split at h
    · rcases ih s s' h with ⟨h1, h2, h3, h4, h5, h6, h7, h8⟩
      refine ⟨h1, h2, h3, h4, h5, h6, h7, ?_⟩
      intro e he
      rcases h8 e he with h9 | ⟨ln2, hm, h9⟩
      · exact Or.inl h9
      · exact Or.inr ⟨ln2, List.mem_cons_of_mem ln hm, h9⟩
    · split at h
      · cases h
      · split at h
        · cases h
        · rcases ih _ s' h with ⟨h1, h2, h3, h4, h5, h6, h7, h8⟩
          refine ⟨le_trans (by simp) h1, h2, h3, h4, h5, h6, h7, ?_⟩
          intro e he
          rcases h8 e he with h9 | ⟨ln2, hm, h9⟩
          · rcases List.mem_append.mp h9 with h9 | h9
            · exact Or.inl h9
            · right
              refine ⟨ln, List.mem_cons_self ln rest, ?_⟩
              rw [List.mem_singleton.mp h9]
          · exact Or.inr ⟨ln2, List.mem_cons_of_mem ln hm, h9⟩

/-- One unfolding step of the transit-node pass. -/
theorem transitPass_cons (tileid : GraphId) (stops : List TransitStop)
    (pbfs : List (GraphId × List TransitStop)) (conns : List OSMConnectionEdge)
    (tnc : List (GraphId × Nat)) (rts : List (Nat × Nat))
    (dist : PointLL → PointLL → Rat) (g : GraphId) (se : StopEdges)
    (rest : List (GraphId × StopEdges)) (s : BuildState) :
    transitPass tileid stops pbfs conns tnc rts dist ((g, se) :: rest) s =
      match stops.get? se.origin_pbf_graphid.id with
      | none => none
      | some stop =>
        match lineLoop tileid stops pbfs tnc rts dist (stop.lon, stop.lat)
            (GetGraphId se.origin_pbf_graphid tnc) s.dedges.length se.lines
            (revConnLoop se.origin_pbf_graphid (GetGraphId se.origin_pbf_graphid tnc)
              s.dedges.length conns s) with
        | none => none
        | some s2 =>
          transitPass tileid stops pbfs conns tnc rts dist rest
            { s2 with
                tnodes := s2.tnodes ++
                  [{ latlng := (stop.lon, stop.lat),
                     classification := RoadClass.kServiceOther,
                     access := kPedestrianAccess,
                     ntype := NodeType.kMultiUseTransitStop,
                     traffic_signal := false, child := false, parent := false,
                     mode_change := true,
                     stop_index := se.origin_pbf_graphid.id,
                     timezone := stop.timezone,
                     edge_index := s.dedges.length,
                     edge_count := s2.dedges.length - s.dedges.length }] } := rfl

/-- Structural facts about the transit-node pass: the road nodes and the
sign lists are untouched, one transit node with pedestrian access is
appended per stop-edge-map entry, edges only grow and the new ones are
transit connections or carry a line id of the map, and the node list
stays contiguous with the edge array. -/
theorem transitPass_struct (tileid : GraphId) (stops : List TransitStop)
    (pbfs : List (GraphId × List TransitStop)) (conns : List OSMConnectionEdge)
    (tnc : List (GraphId × Nat)) (rts : List (Nat × Nat))
    (dist : PointLL → PointLL → Rat) :
    ∀ (sem : List (GraphId × StopEdges)) (s s' : BuildState),
      transitPass tileid stops pbfs conns tnc rts dist sem s = some s' →
      s'.rnodes = s.rnodes ∧
      s'.updSigns = s.updSigns ∧ s'.remSigns = s.remSigns ∧
      s'.updRests = s.updRests ∧ s'.remRests = s.remRests ∧
      s'.tnodes.length = s.tnodes.length + sem.length ∧
      (∀ n ∈ s'.tnodes, n ∈ s.tnodes ∨ n.access = kPedestrianAccess) ∧
      s.dedges.length ≤ s'.dedges.length ∧
      (∀ e ∈ s'.dedges, e ∈ s.dedges ∨ e.use = Use.kTransitConnection ∨
        ∃ p ∈ sem, ∃ ln ∈ p.2.lines, e.lineid = ln.lineid) ∧
      (contigB (s.rnodes ++ s.tnodes) 0 = true →
        sumCounts (s.rnodes ++ s.tnodes) = s.dedges.length →
        contigB (s'.rnodes ++ s'.tnodes) 0 = true ∧
        sumCounts (s'.rnodes ++ s'.tnodes) = s'.dedges.length) := by
  intro sem
  induction sem with
  | nil =>
    intro s s' h
    cases h
    exact ⟨rfl, rfl, rfl, rfl, rfl, by simp, fun n hn => Or.inl hn, le_refl _,
      fun e he => Or.inl he, fun h1 h2 => ⟨h1, h2⟩⟩
  | cons p rest ih =>
    intro s s' h
    rcases p with ⟨g, se⟩
    rw [transitPass_cons] at h
    cases hstop : stops.get? se.origin_pbf_graphid.id with
    | none => rw [hstop] at h; cases h
    | some stop =>
      rw [hstop] at h
      dsimp only at h
      cases hll : lineLoop tileid stops pbfs tnc rts dist (stop.lon, stop.lat)
          (GetGraphId se.origin_pbf_graphid tnc) s.dedges.length se.lines
          (revConnLoop se.origin_pbf_graphid (GetGraphId se.origin_pbf_graphid tnc)
            s.dedges.length conns s) with
      | none => rw [hll] at h; dsimp only at h; cases h
      | some s2 =>
        rw [hll] at h
        dsimp only at h
        rcases revConnLoop_basic se.origin_pbf_graphid
            (GetGraphId se.origin_pbf_graphid tnc) s.dedges.length conns s with
          ⟨c1, c2, c3, c4, c5, c6, c7, c8⟩
        rcases lineLoop_basic tileid stops pbfs tnc rts dist (stop.lon, stop.lat)
            (GetGraphId se.origin_pbf_graphid tnc) s.dedges.length se.lines _ s2 hll with
          ⟨d1, d2, d3, d4, d5, d6, d7, d8⟩
        rcases ih _ s' h with ⟨e1, e2, e3, e4, e5, e6, e7, e8, e9, e10⟩
        dsimp only at e1 e2 e3 e4 e5 e6 e7 e8 e9 e10
        have hrn : s2.rnodes = s.rnodes := by rw [d6, c6]
        have htn : s2.tnodes = s.tnodes := by rw [d7, c7]
        have hlen : s.dedges.length ≤ s2.dedges.length := le_trans c1 d1
        refine ⟨?_, ?_, ?_, ?_, ?_, ?_, ?_, ?_, ?_, ?_⟩
        · rw [e1, hrn]
        · rw [e2, d2, c2]
        · rw [e3, d3, c3]
        · rw [e4, d4, c4]
        · rw [e5, d5, c5]
        · rw [e6, List.length_append, htn]
          simp
          omega
        · intro n hn
          rcases e7 n hn with h9 | h9
          · rcases List.mem_append.mp h9 with h10 | h10
            · exact Or.inl (htn ▸ h10)
            · right
              rw [List.mem_singleton.mp h10]
          · exact Or.inr h9
        · exact le_trans hlen e8
        · intro e he
          rcases e9 e he with h9 | h9 | ⟨p2, hp2, hln⟩
          · rcases d8 e h9 with h10 | ⟨ln2, hln2, h10⟩
            · rcases c8 e h10 with h11 | h11
              · exact Or.inl h11
              · exact Or.inr (Or.inl h11)
            · exact Or.inr (Or.inr ⟨(g, se), List.mem_cons_self _ rest, ln2, hln2, h10⟩)
          · exact Or.inr (Or.inl h9)
          · exact Or.inr (Or.inr ⟨p2, List.mem_cons_of_mem _ hp2, hln⟩)
        · intro h1 h2
          apply e10
          · rw [hrn, htn, ← List.append_assoc, contigB_append, h1]
            simp [contigB, h2]
          · rw [hrn, htn, ← List.append_assoc, sumCounts_append, h2]
            simp [sumCounts]
            omega

/-- Unfolding of a successful tile rewrite into its three stages. -/
theorem AddToGraphM_elim (tileid : GraphId) (cn : List NodeInfo) (ce : List DirectedEdge)
    (signs rests : List Nat) (pbfs : List (GraphId × List TransitStop))
    (tnc : List (GraphId × Nat)) (sem : List (GraphId × StopEdges))
    (sa : List (GraphId × Bool)) (conns : List OSMConnectionEdge)
    (rts : List (Nat × Nat)) (dist : PointLL → PointLL → Rat) (t : TileOut)
    (ht : AddToGraphM tileid cn ce signs rests pbfs tnc sem sa conns rts dist = some t) :
    ∃ stops s1 s2, alookup pbfs tileid = some stops ∧
      roadPass ce conns tnc cn 0 ⟨[], [], [], signs, [], rests, 0, [], []⟩ = some s1 ∧
      transitPass tileid stops pbfs conns tnc rts dist sem s1 = some s2 ∧
      t = ⟨s2.rnodes ++ s2.tnodes, s2.dedges, s2.updSigns ++ s2.remSigns,
        s2.updRests ++ s2.remRests, s2.einfos⟩ := by
  unfold AddToGraphM at ht
  cases hpb : alookup pbfs tileid with
  | none => rw [hpb] at ht; cases ht
  | some stops =>
    rw [hpb] at ht
    dsimp only at ht
    cases hrp : roadPass ce conns tnc cn 0 ⟨[], [], [], signs, [], rests, 0, [], []⟩ with
    | none => rw [hrp] at ht; cases ht
    | some s1 =>
      rw [hrp] at ht
      dsimp only at ht
      cases htp : transitPass tileid stops pbfs conns tnc rts dist sem s1 with
      | none => rw [htp] at ht; cases ht
      | some s2 =>
        rw [htp] at ht
        dsimp only at ht
        exact ⟨stops, s1, s2, rfl, rfl, htp, (Option.some.inj ht).symm⟩

/-- Claim C4: in every rebuilt tile the sum of `edge_count` over all
nodes equals the size of the rebuilt directed-edge array, the edges of
each node occupy the contiguous range starting at its `edge_index` and
consecutive nodes abut, and the node list consists of the original road
nodes (all fields other than edge index and count preserved, in their
original order) followed by one appended transit node per stop-edge-map
entry. -/
theorem C4_node_edge_layout (tileid : GraphId) (cn : List NodeInfo)
    (ce : List DirectedEdge) (signs rests : List Nat)
    (pbfs : List (GraphId × List TransitStop)) (tnc : List (GraphId × Nat))
    (sem : List (GraphId × StopEdges)) (sa : List (GraphId × Bool))
    (conns : List OSMConnectionEdge) (rts : List (Nat × Nat))
    (dist : PointLL → PointLL → Rat) (t : TileOut)
    (ht : AddToGraphM tileid cn ce signs rests pbfs tnc sem sa conns rts dist = some t) :
    sumCounts t.nodes = t.dedges.length ∧ contigB t.nodes 0 = true ∧
    t.nodes.length = cn.length + sem.length ∧
    (t.nodes.take cn.length).map nodeCore = cn.map nodeCore := by
  rcases AddToGraphM_elim tileid cn ce signs rests pbfs tnc sem sa conns rts dist t ht with
    ⟨stops, s1, s2, hpb, hrp, htp, hteq⟩
  rcases roadPass_struct ce conns tnc cn 0 _ s1 hrp with ⟨r1, r2, r3, r4, r5⟩
  rcases transitPass_struct tileid stops pbfs conns tnc rts dist sem s1 s2 htp with
    ⟨t1, t2, t3, t4, t5, t6, t7, t8, t9, t10⟩
  dsimp only at r1 r2 r5
  obtain ⟨hc1, hc2⟩ := r5 rfl rfl
  have ht1 : s1.tnodes = [] := r1
  obtain ⟨hd1, hd2⟩ := t10 (by rw [ht1, List.append_nil]; exact hc1)
    (by rw [ht1, List.append_nil]; exact hc2)
  have hrlen : s1.rnodes.length = cn.length := by
    have := congrArg List.length r2
    simpa using this
  have hr2 : s1.rnodes.map nodeCore = cn.map nodeCore := by
    simpa using r2
  subst hteq
  dsimp only
  refine ⟨hd2, hd1, ?_, ?_⟩
  · rw [List.length_append, t1, hrlen, t6, ht1]
    simp
  · rw [show cn.length = s2.rnodes.length from by rw [t1, hrlen]]
    rw [List.take_left]
    rw [t1, hr2]

/-- Witness for C4 at the concrete witness tile. -/
theorem C4_witness :
    sumCounts wOut.nodes = wOut.dedges.length ∧ contigB wOut.nodes 0 = true ∧
    wOut.nodes.length = [wNode].length + wSem.length ∧
    (wOut.nodes.take [wNode].length).map nodeCore = [wNode].map nodeCore :=
  C4_node_edge_layout wTile [wNode] [wEdge] [0] [0] [(wTile, [wStop])] [(wTile, 1)] wSem []
    [wConn] [(0, 3)] (fun _ _ => 5) wOut rfl

/-- Claim C9: the rebuilt tile is independent of the `stop_access` map —
two rewrites differing only in `stop_access` produce identical results —
and every appended transit node's access field is the pedestrian access
constant. -/
theorem C9_stop_access_unused (tileid : GraphId) (cn : List NodeInfo)
    (ce : List DirectedEdge) (signs rests : List Nat)
    (pbfs : List (GraphId × List TransitStop)) (tnc : List (GraphId × Nat))
    (sem : List (GraphId × StopEdges)) (sa1 sa2 : List (GraphId × Bool))
    (conns : List OSMConnectionEdge) (rts : List (Nat × Nat))
    (dist : PointLL → PointLL → Rat) :
    AddToGraphM tileid cn ce signs rests pbfs tnc sem sa1 conns rts dist =
      AddToGraphM tileid cn ce signs rests pbfs tnc sem sa2 conns rts dist ∧
    (∀ t, AddToGraphM tileid cn ce signs rests pbfs tnc sem sa1 conns rts dist = some t →
      ∀ n ∈ t.nodes.drop cn.length, n.access = kPedestrianAccess) := by
  constructor
  · rfl
  · intro t ht n hn
    rcases AddToGraphM_elim tileid cn ce signs rests pbfs tnc sem sa1 conns rts dist t ht with
      ⟨stops, s1, s2, hpb, hrp, htp, hteq⟩
    rcases roadPass_struct ce conns tnc cn 0 _ s1 hrp with ⟨r1, r2, r3, r4, r5⟩
    rcases transitPass_struct tileid stops pbfs conns tnc rts dist sem s1 s2 htp with
      ⟨t1, t2, t3, t4, t5, t6, t7, t8, t9, t10⟩
    dsimp only at r1 r2
    have ht1 : s1.tnodes = [] := r1
    have hrlen : s1.rnodes.length = cn.length := by
      have := congrArg List.length r2
      simpa using this
    subst hteq
    dsimp only at hn
    rw [show cn.length = s2.rnodes.length from by rw [t1, hrlen], List.drop_left] at hn
    rcases t7 n hn with h | h
    · rw [ht1] at h
      simp at h
    · exact h

/-- Witness for C9 at the concrete witness tile. -/
theorem C9_witness :
    AddToGraphM wTile [wNode] [wEdge] [0] [0] [(wTile, [wStop])] [(wTile, 1)] wSem []
        [wConn] [(0, 3)] (fun _ _ => 5) =
      AddToGraphM wTile [wNode] [wEdge] [0] [0] [(wTile, [wStop])] [(wTile, 1)] wSem
        [(⟨1, 2, 0⟩, true)] [wConn] [(0, 3)] (fun _ _ => 5) ∧
    (wOut.nodes.getD 1 default).access = kPedestrianAccess :=
  ⟨(C9_stop_access_unused wTile [wNode] [wEdge] [0] [0] [(wTile, [wStop])] [(wTile, 1)] wSem
      [] [(⟨1, 2, 0⟩, true)] [wConn] [(0, 3)] (fun _ _ => 5)).1,
   (C9_stop_access_unused wTile [wNode] [wEdge] [0] [0] [(wTile, [wStop])] [(wTile, 1)] wSem
      [] [(⟨1, 2, 0⟩, true)] [wConn] [(0, 3)] (fun _ _ => 5)).2 wOut rfl
      (wOut.nodes.getD 1 default) (by decide)⟩

/-- `alookup` misses exactly the keys outside the map's domain. -/
theorem alookup_none_iff {α β : Type} [DecidableEq α] :
    ∀ (m : List (α × β)) (k : α), alookup m k = none ↔ k ∉ m.map Prod.fst := by
  intro m
  induction m with
  | nil => intro k; simp [alookup]
  | cons p r ih =>
    intro k
    rcases p with ⟨a, b⟩
    by_cases h : a = k
    · subst h
      simp [alookup]
    · simp [alookup, h, ih, Ne.symm h]

/-- `numDistinctFrom` only depends on the membership of `seen`. -/
theorem numDistinctFrom_congr {α : Type} [DecidableEq α] :
    ∀ (l : List α) (s1 s2 : List α), (∀ x, x ∈ s1 ↔ x ∈ s2) →
      numDistinctFrom s1 l = numDistinctFrom s2 l := by
  intro l
  induction l with
  | nil => intro s1 s2 h; rfl
  | cons a r ih =>
    intro s1 s2 h
    by_cases ha : a ∈ s1
    · rw [numDistinctFrom, numDistinctFrom, if_pos ha, if_pos ((h a).mp ha)]
      exact ih s1 s2 h
    · rw [numDistinctFrom, numDistinctFrom, if_neg ha, if_neg (fun hc => ha ((h a).mpr hc))]
      rw [ih (a :: s1) (a :: s2) (by intro x; simp [h x])]


/-- `numDistinctFrom` counts the distinct elements not yet seen. -/
theorem numDistinctFrom_eq_card {α : Type} [DecidableEq α] :
    ∀ (l : List α) (seen : List α),
      numDistinctFrom seen l = (l.toFinset \ seen.toFinset).card := by
  intro l
  induction l with
  | nil => intro seen; simp [numDistinctFrom]
  | cons a r ih =>
    intro seen
    by_cases ha : a ∈ seen
    · rw [numDistinctFrom, if_pos ha, ih seen]
      congr 1
      rw [List.toFinset_cons, Finset.insert_sdiff_of_mem _ (List.mem_toFinset.mpr ha)]
    · rw [numDistinctFrom, if_neg ha, ih (a :: seen)]
      rw [List.toFinset_cons, List.toFinset_cons, Finset.sdiff_insert]
      have hsub : insert a r.toFinset \ seen.toFinset =
          insert a (r.toFinset \ seen.toFinset) := by
        ext x
        simp only [Finset.mem_sdiff, Finset.mem_insert]
        constructor
        · rintro ⟨hx | hx, hx2⟩
          · exact Or.inl hx
          · exact Or.inr ⟨hx, hx2⟩
        · rintro (hx | ⟨hx1, hx2⟩)
          · exact ⟨Or.inl hx, by rw [hx]; exact fun hc => ha (List.mem_toFinset.mp hc)⟩
          · exact ⟨Or.inr hx1, hx2⟩
      rw [hsub]
      by_cases hax : a ∈ r.toFinset \ seen.toFinset
      · rw [Finset.insert_eq_self.mpr hax, Finset.card_erase_of_mem hax]
        have hpos := Finset.card_pos.mpr ⟨a, hax⟩
        omega
      · rw [Finset.card_insert_of_not_mem hax, Finset.erase_eq_of_not_mem hax]
        omega

/-- The number of distinct elements of a list is its `toFinset` card. -/
theorem numDistinct_eq_card {α : Type} [DecidableEq α] (l : List α) :
    numDistinct l = l.toFinset.card := by
  rw [numDistinct, numDistinctFrom_eq_card]
  simp

/-- Projections of a departure step that allocates a new line. -/
theorem depStep_none (a : DepAcc) (d : Departure)
    (hm : alookup a.umap (d.route, d.dest_pbf_graphid) = none) :
    (depStep a d).lines = a.lines ++ [⟨a.uniq, d.route, d.dest_pbf_graphid, d.shapeid⟩] ∧
    (depStep a d).umap = a.umap ++ [((d.route, d.dest_pbf_graphid), a.uniq)] ∧
    (depStep a d).uniq = a.uniq + 1 ∧
    (depStep a d).names = a.names ++ [d.headsign] ∧
    (depStep a d).tds = a.tds ++ [mkTransitDeparture a.uniq a.names.length d] := by
  refine ⟨?_, ?_, ?_, ?_, ?_⟩ <;> simp [depStep, hm, AddName]

/-- Projections of a departure step that reuses an existing line. -/
theorem depStep_some (a : DepAcc) (d : Departure) (lid : Nat)
    (hm : alookup a.umap (d.route, d.dest_pbf_graphid) = some lid) :
    (depStep a d).lines = a.lines ∧
    (depStep a d).umap = a.umap ∧
    (depStep a d).uniq = a.uniq ∧
    (depStep a d).names = a.names ++ [d.headsign] ∧
    (depStep a d).tds = a.tds ++ [mkTransitDeparture lid a.names.length d] := by
  refine ⟨?_, ?_, ?_, ?_, ?_⟩ <;> simp [depStep, hm, AddName]

/-- The departure fold allocates one line per distinct (route,
destination) pair not already in the per-stop map. -/
theorem depFold_lines_count :
    ∀ (ds : List Departure) (a : DepAcc),
      ((ds.foldl depStep a).lines).length =
        a.lines.length + numDistinctFrom (a.umap.map Prod.fst) (ds.map depKey) := by
  intro ds
  induction ds with
  | nil => intro a; simp [numDistinctFrom]
  | cons d r ih =>
    intro a
    have hkey : depKey d = (d.route, d.dest_pbf_graphid) := rfl
    cases hm : alookup a.umap (d.route, d.dest_pbf_graphid) with
    | none =>
      have hnot : depKey d ∉ a.umap.map Prod.fst := by
        rw [hkey]
        exact (alookup_none_iff _ _).mp hm
      rcases depStep_none a d hm with ⟨h1, h2, h3, h4, h5⟩
      rw [List.foldl_cons, List.map_cons, numDistinctFrom, if_neg hnot, ih (depStep a d),
        h1, h2]
      rw [numDistinctFrom_congr (r.map depKey)
        ((a.umap ++ [((d.route, d.dest_pbf_graphid), a.uniq)]).map Prod.fst)
        (depKey d :: a.umap.map Prod.fst)
        (by intro x; rw [hkey]; simp; tauto)]
      simp only [List.length_append, List.length_singleton]
      omega
    | some lid =>
      have hmem : depKey d ∈ a.umap.map Prod.fst := by
        by_contra hc
        have := (alookup_none_iff a.umap (d.route, d.dest_pbf_graphid)).mpr
          (by rw [← hkey]; exact hc)
        rw [this] at hm
        cases hm
      rcases depStep_some a d lid hm with ⟨h1, h2, h3, h4, h5⟩
      rw [List.foldl_cons, List.map_cons, numDistinctFrom, if_pos hmem, ih (depStep a d),
        h1, h2]

/-- A strictly sorted cons: the tail is sorted and dominated. -/
theorem sortedLt_cons : ∀ (a : Nat) (l : List Nat), sortedLt (a :: l) = true →
    sortedLt l = true ∧ ∀ x ∈ l, a < x := by
  intro a l
  induction l generalizing a with
  | nil => intro h; exact ⟨rfl, by simp⟩
  | cons b r ih =>
    intro h
    rw [sortedLt, Bool.and_eq_true, decide_eq_true_eq] at h
    rcases h with ⟨hab, hbr⟩
    rcases ih b hbr with ⟨hr, hbx⟩
    refine ⟨hbr, ?_⟩
    intro x hx
    rcases List.mem_cons.mp hx with hx | hx
    · rw [hx]; exact hab
    · exact lt_trans hab (hbx x hx)

/-- Cons a dominated element onto a strictly sorted list. -/
theorem sortedLt_cons_of : ∀ (a : Nat) (l : List Nat), sortedLt l = true →
    (∀ x ∈ l, a < x) → sortedLt (a :: l) = true := by
  intro a l hl ha
  cases l with
  | nil => rfl
  | cons b r =>
    rw [sortedLt, Bool.and_eq_true, decide_eq_true_eq]
    exact ⟨ha b (List.mem_cons_self b r), hl⟩

/-- Concatenation of strictly sorted lists with a strict cross bound. -/
theorem sortedLt_append : ∀ (A B : List Nat), sortedLt A = true → sortedLt B = true →
    (∀ x ∈ A, ∀ y ∈ B, x < y) → sortedLt (A ++ B) = true := by
  intro A
  induction A with
  | nil => intro B _ hB _; exact hB
  | cons a A ih =>
    intro B hA hB hx
    rcases sortedLt_cons a A hA with ⟨hA2, ha⟩
    refine sortedLt_cons_of a (A ++ B) (ih B hA2 hB ?_) ?_
    · intro x hxa y hy
      exact hx x (List.mem_cons_of_mem a hxa) y hy
    · intro x hxm
      rcases List.mem_append.mp hxm with hxm | hxm
      · exact ha x hxm
      · exact hx a (List.mem_cons_self a A) x hxm

/-- A strictly sorted list has no duplicates. -/
theorem sortedLt_nodup : ∀ (l : List Nat), sortedLt l = true → l.Nodup := by
  intro l
  induction l with
  | nil => intro _; exact List.nodup_nil
  | cons a r ih =>
    intro h
    rcases sortedLt_cons a r h with ⟨hr, ha⟩
    rw [List.nodup_cons]
    exact ⟨fun hc => lt_irrefl a (ha a hc), ih hr⟩

/-- `allLineIds` distributes over append. -/
theorem allLineIds_append : ∀ (s1 s2 : List (GraphId × StopEdges)),
    allLineIds (s1 ++ s2) = allLineIds s1 ++ allLineIds s2 := by
  intro s1 s2
  induction s1 with
  | nil => rfl
  | cons p r ih => rw [List.cons_append, allLineIds, allLineIds, ih, List.append_assoc]

/-- Membership in `allLineIds`. -/
theorem mem_allLineIds : ∀ (sem : List (GraphId × StopEdges)) (x : Nat),
    x ∈ allLineIds sem ↔ ∃ p ∈ sem, ∃ l ∈ p.2.lines, x = l.lineid := by
  intro sem x
  induction sem with
  | nil => simp [allLineIds]
  | cons p r ih =>
    rw [allLineIds, List.mem_append, ih]
    simp only [List.mem_map, List.mem_cons]
    constructor
    · rintro (⟨l, hl, hlx⟩ | ⟨q, hq, l, hl, hlx⟩)
      · exact ⟨p, Or.inl rfl, l, hl, hlx.symm⟩
      · exact ⟨q, Or.inr hq, l, hl, hlx⟩
    · rintro ⟨q, hq | hq, l, hl, hlx⟩
      · exact Or.inl ⟨l, by rw [hq] at hl; exact hl, hlx.symm⟩
      · exact Or.inr ⟨q, hq, l, hl, hlx⟩

/-- Line-id discipline of the departure fold: ids stay strictly sorted,
below the counter, and new ones start at the incoming counter. -/
theorem depFold_lines_ids :
    ∀ (ds : List Departure) (a : DepAcc),
      sortedLt (a.lines.map TransitLine.lineid) = true →
      (∀ l ∈ a.lines, l.lineid < a.uniq) →
      sortedLt ((ds.foldl depStep a).lines.map TransitLine.lineid) = true ∧
      (∀ l ∈ (ds.foldl depStep a).lines, l.lineid < (ds.foldl depStep a).uniq) ∧
      a.uniq ≤ (ds.foldl depStep a).uniq ∧
      (∀ l ∈ (ds.foldl depStep a).lines, l ∈ a.lines ∨ a.uniq ≤ l.lineid) := by
  intro ds
  induction ds with
  | nil => intro a h1 h2; exact ⟨h1, h2, le_refl _, fun l hl => Or.inl hl⟩
  | cons d r ih =>
    intro a h1 h2
    simp only [List.foldl_cons]
    cases hm : alookup a.umap (d.route, d.dest_pbf_graphid) with
    | none =>
      rcases depStep_none a d hm with ⟨p1, p2, p3, p4, p5⟩
      have h1' : sortedLt ((depStep a d).lines.map TransitLine.lineid) = true := by
        rw [p1, List.map_append]
        refine sortedLt_append _ _ h1 rfl ?_
        intro x hx y hy
        rcases List.mem_map.mp hx with ⟨l, hl, hlx⟩
        have := h2 l hl
        simp at hy
        omega
      have h2' : ∀ l ∈ (depStep a d).lines, l.lineid < (depStep a d).uniq := by
        rw [p1, p3]
        intro l hl
        rcases List.mem_append.mp hl with hl | hl
        · have := h2 l hl; omega
        · rw [List.mem_singleton.mp hl]
          show a.uniq < a.uniq + 1
          omega
      rcases ih (depStep a d) h1' h2' with ⟨q1, q2, q3, q4⟩
      refine ⟨q1, q2, ?_, ?_⟩
      · rw [p3] at q3; omega
      · intro l hl
        rcases q4 l hl with hl2 | hl2
        · rw [p1] at hl2
          rcases List.mem_append.mp hl2 with hl2 | hl2
          · exact Or.inl hl2
          · right
            rw [List.mem_singleton.mp hl2]
        · rw [p3] at hl2
          right
          omega
    | some lid =>
      rcases depStep_some a d lid hm with ⟨p1, p2, p3, p4, p5⟩
      have h1' : sortedLt ((depStep a d).lines.map TransitLine.lineid) = true := by
        rw [p1]; exact h1
      have h2' : ∀ l ∈ (depStep a d).lines, l.lineid < (depStep a d).uniq := by
        rw [p1, p3]; exact h2
      rcases ih (depStep a d) h1' h2' with ⟨q1, q2, q3, q4⟩
      refine ⟨q1, q2, by rw [p3] at q3; exact q3, ?_⟩
      intro l hl
      rcases q4 l hl with hl2 | hl2
      · rw [p1] at hl2; exact Or.inl hl2
      · rw [p3] at hl2; exact Or.inr hl2

/-- Projections of one stop-loop step. -/
theorem stopStep_proj (deps : List (GraphId × Departure)) (st : StopLoopState)
    (stop : TransitStop) :
    (stopStep deps st stop).unique_lineid =
      (((deps.filter (fun p => decide (p.1 = stop.graphid))).map (fun p => p.2)).foldl
        depStep ⟨st.unique_lineid, [], [], st.names, []⟩).uniq ∧
    (stopStep deps st stop).sem = st.sem ++
      [(stop.graphid, ⟨stop.graphid, [],
        (((deps.filter (fun p => decide (p.1 = stop.graphid))).map (fun p => p.2)).foldl
          depStep ⟨st.unique_lineid, [], [], st.names, []⟩).lines⟩)] ∧
    (stopStep deps st stop).tds = st.tds ++
      (((deps.filter (fun p => decide (p.1 = stop.graphid))).map (fun p => p.2)).foldl
        depStep ⟨st.unique_lineid, [], [], st.names, []⟩).tds :=
  ⟨rfl, rfl, rfl⟩

/-- Line-id discipline of the stop loop: ids stay strictly sorted, at
least 1, and below the running counter. -/
theorem stopLoop_inv :
    ∀ (stops : List TransitStop) (deps : List (GraphId × Departure)) (st : StopLoopState),
      sortedLt (allLineIds st.sem) = true →
      (∀ x ∈ allLineIds st.sem, 1 ≤ x ∧ x < st.unique_lineid) →
      1 ≤ st.unique_lineid →
      sortedLt (allLineIds (stops.foldl (stopStep deps) st).sem) = true ∧
      (∀ x ∈ allLineIds (stops.foldl (stopStep deps) st).sem,
        1 ≤ x ∧ x < (stops.foldl (stopStep deps) st).unique_lineid) ∧
      st.unique_lineid ≤ (stops.foldl (stopStep deps) st).unique_lineid := by
  intro stops
  induction stops with
  | nil => intro deps st h1 h2 h3; exact ⟨h1, h2, le_refl _⟩
  | cons stop r ih =>
    intro deps st h1 h2 h3
    simp only [List.foldl_cons]
    rcases stopStep_proj deps st stop with ⟨sp1, sp2, sp3⟩
    rcases depFold_lines_ids
        ((deps.filter (fun p => decide (p.1 = stop.graphid))).map (fun p => p.2))
        ⟨st.unique_lineid, [], [], st.names, []⟩ rfl (by intro l hl; cases hl) with
      ⟨q1, q2, q3, q4⟩
    dsimp only at q3
    have hai : allLineIds (stopStep deps st stop).sem =
        allLineIds st.sem ++
          (((deps.filter (fun p => decide (p.1 = stop.graphid))).map (fun p => p.2)).foldl
            depStep ⟨st.unique_lineid, [], [], st.names, []⟩).lines.map
              TransitLine.lineid := by
      rw [sp2, allLineIds_append, allLineIds, allLineIds, List.append_nil]
    have hnew : ∀ y ∈ (((deps.filter (fun p => decide (p.1 = stop.graphid))).map
        (fun p => p.2)).foldl depStep ⟨st.unique_lineid, [], [], st.names, []⟩).lines.map
          TransitLine.lineid, st.unique_lineid ≤ y := by
      intro y hy
      rcases List.mem_map.mp hy with ⟨l, hl, hly⟩
      rcases q4 l hl with hc | hc
      · cases hc
      · rw [← hly]; exact hc
    have h1' : sortedLt (allLineIds (stopStep deps st stop).sem) = true := by
      rw [hai]
      refine sortedLt_append _ _ h1 q1 ?_
      intro x hx y hy
      have := (h2 x hx).2
      have := hnew y hy
      omega
    have h2' : ∀ x ∈ allLineIds (stopStep deps st stop).sem,
        1 ≤ x ∧ x < (stopStep deps st stop).unique_lineid := by
      rw [hai, sp1]
      intro x hx
      rcases List.mem_append.mp hx with hx | hx
      · rcases h2 x hx with ⟨ha, hb⟩
        refine ⟨ha, ?_⟩
        have := q3
        omega
      · rcases List.mem_map.mp hx with ⟨l, hl, hlx⟩
        have hb := q2 l hl
        have hc := hnew x hx
        omega
    have h3' : 1 ≤ (stopStep deps st stop).unique_lineid := by
      rw [sp1]
      omega
    rcases ih deps (stopStep deps st stop) h1' h2' h3' with ⟨A, B, C⟩
    refine ⟨A, B, le_trans ?_ C⟩
    rw [sp1]
    exact q3

/-- The per-stop dedup law propagated through the stop loop. -/
theorem stopLoop_count :
    ∀ (stops : List TransitStop) (deps : List (GraphId × Departure)) (st : StopLoopState),
      (∀ p ∈ st.sem, p.2.lines.length =
        numDistinct (((deps.filter (fun q => decide (q.1 = p.1))).map
          (fun q => q.2)).map depKey)) →
      ∀ p ∈ (stops.foldl (stopStep deps) st).sem, p.2.lines.length =
        numDistinct (((deps.filter (fun q => decide (q.1 = p.1))).map
          (fun q => q.2)).map depKey) := by
  intro stops
  induction stops with
  | nil => intro deps st h; exact h
  | cons stop r ih =>
    intro deps st h
    simp only [List.foldl_cons]
    refine ih deps (stopStep deps st stop) ?_
    rcases stopStep_proj deps st stop with ⟨sp1, sp2, sp3⟩
    rw [sp2]
    intro p hp
    rcases List.mem_append.mp hp with hp | hp
    · exact h p hp
    · rw [List.mem_singleton.mp hp]
      show (((deps.filter (fun p => decide (p.1 = stop.graphid))).map (fun p => p.2)).foldl
          depStep ⟨st.unique_lineid, [], [], st.names, []⟩).lines.length = _
      rw [depFold_lines_count]
      simp [numDistinct]

/-- Claim C5: within one origin stop the number of TransitLine records
equals the number of distinct (route, destination) pairs among that
stop's departures; allocated line ids are strictly increasing, at least
1, and pairwise distinct across the tile; and in a tile rewrite fed with
this stop edge map (over a road tile without pre-existing rail or bus
edges), no materialized transit directed edge carries line id 0. -/
theorem C5_line_dedup (stops : List TransitStop) (deps : List (GraphId × Departure))
    (names0 : List String) :
    (∀ p ∈ (buildStopLoop stops deps names0).sem,
      p.2.lines.length =
        (((deps.filter (fun q => decide (q.1 = p.1))).map (fun q => q.2)).map
          depKey).toFinset.card) ∧
    sortedLt (allLineIds (buildStopLoop stops deps names0).sem) = true ∧
    (∀ x ∈ allLineIds (buildStopLoop stops deps names0).sem, 1 ≤ x) ∧
    (allLineIds (buildStopLoop stops deps names0).sem).Nodup ∧
    (∀ (tileid : GraphId) (cn : List NodeInfo) (ce : List DirectedEdge)
        (signs rests : List Nat) (pbfs : List (GraphId × List TransitStop))
        (tnc : List (GraphId × Nat)) (sa : List (GraphId × Bool))
        (conns : List OSMConnectionEdge) (rts : List (Nat × Nat))
        (dist : PointLL → PointLL → Rat) (t : TileOut),
      AddToGraphM tileid cn ce signs rests pbfs tnc
          (buildStopLoop stops deps names0).sem sa conns rts dist = some t →
      (∀ e ∈ ce, e.use ≠ Use.kRail ∧ e.use ≠ Use.kBus) →
      ∀ e ∈ t.dedges, e.use = Use.kRail ∨ e.use = Use.kBus → e.lineid ≠ 0) := by
  rcases stopLoop_inv stops deps ⟨1, names0, [], []⟩ rfl (by intro x hx; cases hx)
    (le_refl 1) with ⟨hsort, hbound, hmono⟩
  have hga : ∀ x ∈ allLineIds (buildStopLoop stops deps names0).sem, 1 ≤ x :=
    fun x hx => (hbound x hx).1
  refine ⟨?_, hsort, hga, sortedLt_nodup _ hsort, ?_⟩
  · intro p hp
    rw [← numDistinct_eq_card]
    exact stopLoop_count stops deps ⟨1, names0, [], []⟩ (by intro q hq; cases hq) p hp
  · intro tileid cn ce signs rests pbfs tnc sa conns rts dist t ht hce e he huse
    rcases AddToGraphM_elim tileid cn ce signs rests pbfs tnc
        (buildStopLoop stops deps names0).sem sa conns rts dist t ht with
      ⟨stps, s1, s2, hpb, hrp, htp, hteq⟩
    rcases roadPass_struct ce conns tnc cn 0 _ s1 hrp with ⟨r1, r2, r3, r4, r5⟩
    rcases transitPass_struct tileid stps pbfs conns tnc rts dist
        (buildStopLoop stops deps names0).sem s1 s2 htp with
      ⟨t1, t2, t3, t4, t5, t6, t7, t8, t9, t10⟩
    dsimp only at r4
    subst hteq
    dsimp only at he
    rcases t9 e he with h | h | ⟨p, hp, ln, hln, hlid⟩
    · rcases r4 e h with h2 | h2 | h2 | h2
      · cases h2
      · rcases huse with hu | hu
        · exact absurd hu (hce e h2).1
        · exact absurd hu (hce e h2).2
      · rw [h2] at huse
        rcases huse with hu | hu <;> exact absurd hu (by decide)
      · rw [h2] at huse
        rcases huse with hu | hu <;> cases hu
    · rw [h] at huse
      rcases huse with hu | hu <;> cases hu
    · rw [hlid]
      have hm : ln.lineid ∈ allLineIds (buildStopLoop stops deps names0).sem :=
        (mem_allLineIds _ _).mpr ⟨p, hp, ln, hln, rfl⟩
      have := hga _ hm
      omega

/-- Witness for C5 at the concrete one-stop tile: the witness stop edge
map is exactly the stop-loop output, the dedup count is 1, the line ids
are [1], and the materialized bus edge of the rewrite carries a nonzero
line id. -/
theorem C5_witness :
    ((c5out.sem.getD 0 default).2.lines.length =
      (((c5deps.filter (fun q => decide (q.1 = (c5out.sem.getD 0 default).1))).map
        (fun q => q.2)).map depKey).toFinset.card) ∧
    sortedLt (allLineIds c5out.sem) = true ∧
    (wOut.dedges.getD 3 default).use = Use.kBus ∧
    (wOut.dedges.getD 3 default).lineid ≠ 0 :=
  ⟨(C5_line_dedup [wStop] c5deps []).1 (c5out.sem.getD 0 default) (by decide),
   (C5_line_dedup [wStop] c5deps []).2.1,
   by decide,
   (C5_line_dedup [wStop] c5deps []).2.2.2.2 wTile [wNode] [wEdge] [0] [0]
     [(wTile, [wStop])] [(wTile, 1)] [] [wConn] [(0, 3)] (fun _ _ => 5) wOut
     (by rfl) (by decide) (wOut.dedges.getD 3 default) (by decide) (by decide)⟩

/-- A sorted cons: the tail is sorted and bounded below by the head. -/
theorem sortedBy_cons {α : Type} (f : α → Nat) :
    ∀ (a : α) (l : List α), sortedBy f (a :: l) = true →
      sortedBy f l = true ∧ ∀ x ∈ l, f a ≤ f x := by
  intro a l
  induction l generalizing a with
  | nil => intro _; exact ⟨rfl, by simp⟩
  | cons b r ih =>
    intro h
    rw [sortedBy, Bool.and_eq_true, decide_eq_true_eq] at h
    rcases h with ⟨hab, hbr⟩
    rcases ih b hbr with ⟨hr, hbx⟩
    refine ⟨hbr, ?_⟩
    intro x hx
    rcases List.mem_cons.mp hx with hx | hx
    · rw [hx]; exact hab
    · exact le_trans hab (hbx x hx)

/-- `dropWhile` of a sorted list is sorted. -/
theorem sortedBy_dropWhile {α : Type} (f : α → Nat) (p : α → Bool) :
    ∀ (l : List α), sortedBy f l = true → sortedBy f (l.dropWhile p) = true := by
  intro l
  induction l with
  | nil => intro _; rfl
  | cons a r ih =>
    intro h
    rw [List.dropWhile_cons]
    split
    · exact ih (sortedBy_cons f a r h).1
    · exact h

/-- Members of `dropWhile` are members. -/
theorem mem_of_mem_dropWhile {α : Type} (p : α → Bool) :
    ∀ (l : List α) (x : α), x ∈ l.dropWhile p → x ∈ l := by
  intro l
  induction l with
  | nil => intro x h; exact h
  | cons a r ih =>
    intro x h
    rw [List.dropWhile_cons] at h
    split at h
    · exact List.mem_cons_of_mem a (ih x h)
    · exact h

/-- After dropping the elements with key `k` from a sorted list bounded
below by `k`, every key is strictly above `k`. -/
theorem dropWhile_key_gt {α : Type} (f : α → Nat) (k : Nat) :
    ∀ (l : List α), sortedBy f l = true → (∀ x ∈ l, k ≤ f x) →
      ∀ x ∈ l.dropWhile (fun c => decide (f c = k)), k + 1 ≤ f x := by
  intro l
  induction l with
  | nil => intro _ _ x h; cases h
  | cons a r ih =>
    intro hs hk x hx
    rw [List.dropWhile_cons] at hx
    rcases sortedBy_cons f a r hs with ⟨hr, ha⟩
    split at hx
    · exact ih hr (fun y hy => hk y (List.mem_cons_of_mem a hy)) x hx
    · rename_i hne
      rw [decide_eq_true_eq] at hne
      have hka : k ≤ f a := hk a (List.mem_cons_self a r)
      have hgt : k + 1 ≤ f a := by omega
      rcases List.mem_cons.mp hx with hx | hx
      · rw [hx]; exact hgt
      · exact le_trans hgt (ha x hx)

/-- A sorted list bounded strictly below `b` from below: takeWhile of
`< b` is empty, dropWhile is the identity. -/
theorem takeWhile_lt_nil (l : List Nat) (b : Nat) (h : ∀ x ∈ l, b ≤ x) :
    l.takeWhile (fun x => decide (x < b)) = [] ∧
    l.dropWhile (fun x => decide (x < b)) = l := by
  cases l with
  | nil => exact ⟨rfl, rfl⟩
  | cons a r =>
    have hab : ¬ (a < b) := Nat.not_lt.mpr (h a (List.mem_cons_self a r))
    rw [List.takeWhile_cons, List.dropWhile_cons]
    simp [hab]

/-- Splitting a `< m` prefix of a sorted list at the leading run of a
minimal value `idx`. -/
theorem takeWhile_lt_split :
    ∀ (l : List Nat) (idx m : Nat), sortedBy (fun x => x) l = true →
      (∀ x ∈ l, idx ≤ x) → idx < m →
      l.takeWhile (fun x => decide (x < m)) =
        l.takeWhile (fun x => decide (x = idx)) ++
          (l.dropWhile (fun x => decide (x = idx))).takeWhile (fun x => decide (x < m)) ∧
      l.dropWhile (fun x => decide (x < m)) =
        (l.dropWhile (fun x => decide (x = idx))).dropWhile (fun x => decide (x < m)) := by
  intro l
  induction l with
  | nil => intro idx m _ _ _; exact ⟨rfl, rfl⟩
  | cons a r ih =>
    intro idx m hs hge him
    by_cases ha : a = idx
    · rcases sortedBy_cons (fun x => x) a r hs with ⟨hr, har⟩
      have hge2 : ∀ x ∈ r, idx ≤ x := by
        intro x hx
        have := har x hx
        omega
      rcases ih idx m hr hge2 him with ⟨ht, hd⟩
      have halt : a < m := by omega
      rw [List.takeWhile_cons, List.takeWhile_cons, List.dropWhile_cons, List.dropWhile_cons]
      simp only [decide_eq_true_eq, if_pos halt, if_pos ha]
      rw [ht, hd]
      simp
    · rw [List.takeWhile_cons (p := fun x => decide (x = idx)),
        List.dropWhile_cons (p := fun x => decide (x = idx))]
      simp only [decide_eq_true_eq, if_neg ha]
      constructor <;> simp

/-- `takeWhile` and `dropWhile` through an all-true prefix. -/
theorem takeWhile_append_all {α : Type} (p : α → Bool) :
    ∀ (l1 l2 : List α), (∀ x ∈ l1, p x = true) →
      (l1 ++ l2).takeWhile p = l1 ++ l2.takeWhile p ∧
      (l1 ++ l2).dropWhile p = l2.dropWhile p := by
  intro l1
  induction l1 with
  | nil => intro l2 _; exact ⟨rfl, rfl⟩
  | cons a r ih =>
    intro l2 h
    rcases ih l2 (fun x hx => h x (List.mem_cons_of_mem a hx)) with ⟨ht, hd⟩
    rw [List.cons_append, List.takeWhile_cons, List.dropWhile_cons,
      if_pos (h a (List.mem_cons_self a r)), if_pos (h a (List.mem_cons_self a r)), ht, hd]
    exact ⟨rfl, rfl⟩

/-- The specification of the sign-cursor fixup loop. -/
theorem fixRefs_spec : ∀ (l : List Nat) (idx added : Nat),
    fixRefs idx added l =
      ((l.takeWhile (fun x => decide (x = idx))).map (fun x => x + added),
        l.dropWhile (fun x => decide (x = idx))) := by
  intro l
  induction l with
  | nil => intro idx added; rfl
  | cons s r ih =>
    intro idx added
    by_cases hs : s = idx
    · rw [fixRefs, if_pos hs, ih, List.takeWhile_cons, List.dropWhile_cons]
      simp only [decide_eq_true_eq, if_pos hs, List.map_cons]
      rw [hs]
    · rw [fixRefs, if_neg hs, List.takeWhile_cons, List.dropWhile_cons]
      simp only [decide_eq_true_eq, if_neg hs]
      rfl

/-- A sorted list after dropping its `< b` prefix is bounded below by
`b`. -/
theorem dropWhile_lt_ge (b : Nat) : ∀ (l : List Nat), sortedBy (fun x => x) l = true →
    ∀ x ∈ l.dropWhile (fun x => decide (x < b)), b ≤ x := by
  intro l
  induction l with
  | nil => intro _ x h; cases h
  | cons a r ih =>
    intro hs x hx
    rcases sortedBy_cons (fun x => x) a r hs with ⟨hr, har⟩
    rw [List.dropWhile_cons] at hx
    split at hx
    · exact ih hr x hx
    · rename_i hna
      rw [decide_eq_true_eq, Nat.not_lt] at hna
      rcases List.mem_cons.mp hx with hx | hx
      · omega
      · have := har x hx
        omega

/-- `getD` at a position whose `drop` is a cons. -/
theorem drop_cons_getD {α : Type} [Inhabited α] :
    ∀ (l : List α) (n : Nat) (a : α) (t : List α),
      l.drop n = a :: t → l.getD n default = a := by
  intro l
  induction l with
  | nil => intro n a t h; rw [List.drop_nil] at h; cases h
  | cons b r ih =>
    intro n a t h
    cases n with
    | zero =>
      rw [List.drop_zero] at h
      rw [List.getD_cons_zero]
      exact (List.cons.injEq b r a t ▸ h).1
    | succ m =>
      rw [List.drop_succ_cons] at h
      rw [List.getD_cons_succ]
      exact ih m a t h

/-- Sign/restriction effect of the copy loop: the cursor entries below
`idx + cnt` are consumed in order, each shifted by the (unchanged)
`added_edges` counter. -/
theorem copyNodeEdges_signs (ce : List DirectedEdge) :
    ∀ (cnt idx : Nat) (s : BuildState),
      sortedBy (fun x => x) s.remSigns = true → (∀ x ∈ s.remSigns, idx ≤ x) →
      sortedBy (fun x => x) s.remRests = true → (∀ x ∈ s.remRests, idx ≤ x) →
      (copyNodeEdges ce idx cnt s).updSigns =
        s.updSigns ++ (s.remSigns.takeWhile (fun x => decide (x < idx + cnt))).map
          (fun x => x + s.added) ∧
      (copyNodeEdges ce idx cnt s).remSigns =
        s.remSigns.dropWhile (fun x => decide (x < idx + cnt)) ∧
      (copyNodeEdges ce idx cnt s).updRests =
        s.updRests ++ (s.remRests.takeWhile (fun x => decide (x < idx + cnt))).map
          (fun x => x + s.added) ∧
      (copyNodeEdges ce idx cnt s).remRests =
        s.remRests.dropWhile (fun x => decide (x < idx + cnt)) := by
  intro cnt
  induction cnt with
  | zero =>
    intro idx s hs1 hs2 hr1 hr2
    rcases takeWhile_lt_nil s.remSigns (idx + 0) (by simpa using hs2) with ⟨ht1, hd1⟩
    rcases takeWhile_lt_nil s.remRests (idx + 0) (by simpa using hr2) with ⟨ht2, hd2⟩
    rw [ht1, ht2, hd1, hd2]
    simp [copyNodeEdges]
  | succ cnt ih =>
    intro idx s hs1 hs2 hr1 hr2
    rw [copyNodeEdges_succ, fixRefs_spec, fixRefs_spec]
    have hsd1 : sortedBy (fun x => x) (s.remSigns.dropWhile (fun x => decide (x = idx))) =
        true := sortedBy_dropWhile _ _ _ hs1
    have hsd2 : ∀ x ∈ s.remSigns.dropWhile (fun x => decide (x = idx)), idx + 1 ≤ x :=
      dropWhile_key_gt (fun x => x) idx s.remSigns hs1 hs2
    have hrd1 : sortedBy (fun x => x) (s.remRests.dropWhile (fun x => decide (x = idx))) =
        true := sortedBy_dropWhile _ _ _ hr1
    have hrd2 : ∀ x ∈ s.remRests.dropWhile (fun x => decide (x = idx)), idx + 1 ≤ x :=
      dropWhile_key_gt (fun x => x) idx s.remRests hr1 hr2
    rcases ih (idx + 1)
        { s with
            dedges := s.dedges ++ [ce.getD idx default]
            updSigns := s.updSigns ++
              (s.remSigns.takeWhile (fun x => decide (x = idx))).map (fun x => x + s.added)
            remSigns := s.remSigns.dropWhile (fun x => decide (x = idx))
            updRests := s.updRests ++
              (s.remRests.takeWhile (fun x => decide (x = idx))).map (fun x => x + s.added)
            remRests := s.remRests.dropWhile (fun x => decide (x = idx)) }
        hsd1 hsd2 hrd1 hrd2 with ⟨k1, k2, k3, k4⟩
    dsimp only at k1 k2 k3 k4
    rcases takeWhile_lt_split s.remSigns idx (idx + (cnt + 1)) hs1 hs2 (by omega) with
      ⟨hsp1, hsp2⟩
    rcases takeWhile_lt_split s.remRests idx (idx + (cnt + 1)) hr1 hr2 (by omega) with
      ⟨hrp1, hrp2⟩
    have harith : idx + 1 + cnt = idx + (cnt + 1) := by omega
    rw [harith] at k1 k2 k3 k4
    refine ⟨?_, ?_, ?_, ?_⟩
    · rw [k1, hsp1, List.map_append, List.append_assoc]
    · rw [k2, hsp2]
    · rw [k3, hrp1, List.map_append, List.append_assoc]
    · rw [k4, hrp2]

/-- Behaviour of the connection loop with ample fuel when every pending
connection has a known destination tile: it consumes exactly the leading
run of connections at the current node. -/
theorem connLoop_spec (conns : List OSMConnectionEdge) (tnc : List (GraphId × Nat))
    (k ei : Nat) :
    ∀ (rc : List OSMConnectionEdge) (fuel : Nat) (s : BuildState),
      conns.drop s.added = rc → rc.length < fuel →
      (∀ c ∈ rc, GetGraphId c.stop_node tnc ≠ GraphId.invalid) →
      ∃ s', connLoop conns tnc k ei fuel s = some s' ∧
        s'.added = s.added +
          (rc.takeWhile (fun c => decide (c.osm_node.id = k))).length ∧
        conns.drop s'.added = rc.dropWhile (fun c => decide (c.osm_node.id = k)) ∧
        s'.updSigns = s.updSigns ∧ s'.remSigns = s.remSigns ∧
        s'.updRests = s.updRests ∧ s'.remRests = s.remRests := by
  intro rc
  induction rc with
  | nil =>
    intro fuel s hdrop hfuel hval
    have hlen : conns.length - s.added = 0 := by
      have := congrArg List.length hdrop
      rwa [List.length_drop, List.length_nil] at this
    cases fuel with
    | zero => omega
    | succ f =>
      rw [connLoop]
      rw [if_neg (by intro hc; omega)]
      exact ⟨s, rfl, by simp, by rw [hdrop]; rfl, rfl, rfl, rfl, rfl⟩
  | cons c rc2 ih =>
    intro fuel s hdrop hfuel hval
    cases fuel with
    | zero => simp at hfuel
    | succ f =>
      have hlt : s.added < conns.length := by
        have := congrArg List.length hdrop
        rw [List.length_drop, List.length_cons] at this
        omega
      have hget : conns.getD s.added default = c := drop_cons_getD conns s.added c rc2 hdrop
      have hdrop2 : conns.drop (s.added + 1) = rc2 := by
        have h1 : conns.drop (s.added + 1) = (conns.drop s.added).drop 1 := by
          rw [List.drop_drop]
        rw [h1, hdrop, List.drop_succ_cons, List.drop_zero]
      by_cases hck : c.osm_node.id = k
      · have hcond : s.added < conns.length ∧
            (conns.getD s.added default).osm_node.id = k := ⟨hlt, by rw [hget]; exact hck⟩
        have hinv : ¬ (GetGraphId c.stop_node tnc = GraphId.invalid) :=
          hval c (List.mem_cons_self c rc2)
        have hstep : connLoop conns tnc k ei (f + 1) s = connLoop conns tnc k ei f
            { s with
                dedges := s.dedges ++ [connDE c (GetGraphId c.stop_node tnc)
                  (s.dedges.length - ei)
                  (AddEdgeInfo 0 c.osm_node (GetGraphId c.stop_node tnc) c.shape s.einfos).1
                  (AddEdgeInfo 0 c.osm_node (GetGraphId c.stop_node tnc) c.shape
                    s.einfos).2.1]
                einfos := (AddEdgeInfo 0 c.osm_node (GetGraphId c.stop_node tnc) c.shape
                  s.einfos).2.2
                added := s.added + 1 } := by
          rw [connLoop, if_pos hcond]
          dsimp only
          rw [hget, if_neg hinv]
        rw [hstep]
        rcases ih f
            { s with
                dedges := s.dedges ++ [connDE c (GetGraphId c.stop_node tnc)
                  (s.dedges.length - ei)
                  (AddEdgeInfo 0 c.osm_node (GetGraphId c.stop_node tnc) c.shape s.einfos).1
                  (AddEdgeInfo 0 c.osm_node (GetGraphId c.stop_node tnc) c.shape
                    s.einfos).2.1]
                einfos := (AddEdgeInfo 0 c.osm_node (GetGraphId c.stop_node tnc) c.shape
                  s.einfos).2.2
                added := s.added + 1 }
            hdrop2 (by simp at hfuel ⊢; omega)
            (fun c2 hc2 => hval c2 (List.mem_cons_of_mem c hc2)) with
          ⟨s', h1, h2, h3, h4, h5, h6, h7⟩
        dsimp only at h2 h3 h4 h5 h6 h7
        refine ⟨s', h1, ?_, ?_, h4, h5, h6, h7⟩
        · rw [h2, List.takeWhile_cons, if_pos (decide_eq_true hck), List.length_cons]
          omega
        · rw [List.dropWhile_cons, if_pos (decide_eq_true hck)]
          exact h3
      · rw [connLoop, if_neg (by
          intro hc
          rw [hget] at hc
          exact hck hc.2)]
        refine ⟨s, rfl, ?_, ?_, rfl, rfl, rfl, rfl⟩
        · rw [List.takeWhile_cons, if_neg (by simpa using hck)]
          simp
        · rw [List.dropWhile_cons, if_neg (by simpa using hck), hdrop]

/-- Members of `takeWhile` are members. -/
theorem mem_of_mem_takeWhile {α : Type} (p : α → Bool) :
    ∀ (l : List α) (x : α), x ∈ l.takeWhile p → x ∈ l := by
  intro l
  induction l with
  | nil => intro x h; cases h
  | cons a r ih =>
    intro x h
    rw [List.takeWhile_cons] at h
    split at h
    · rcases List.mem_cons.mp h with h | h
      · rw [h]; exact List.mem_cons_self a r
      · exact List.mem_cons_of_mem a (ih x h)
    · cases h

/-- Nodes of a partitioned suffix start at or after the running base. -/
theorem nodesPartition_ge : ∀ (l : List NodeInfo) (b : Nat),
    nodesPartitionFrom l b = true → ∀ nb ∈ l, b ≤ nb.edge_index := by
  intro l
  induction l with
  | nil => intro b _ nb h; cases h
  | cons n t ih =>
    intro b h nb hm
    rw [nodesPartitionFrom, Bool.and_eq_true, decide_eq_true_eq] at h
    rcases h with ⟨hn, ht⟩
    rcases List.mem_cons.mp hm with hm | hm
    · rw [hm, hn]
    · have := ih (b + n.edge_count) ht nb hm
      omega

/-- The sign and access-restriction re-indexing performed by the
road-node pass: on a partitioned tile with sorted in-range cursors,
sorted in-range connections with known destination tiles, every cursor
entry `e` is rewritten to `e` plus the number of connections at nodes
strictly before the node at which `e` originates. -/
theorem roadPass_signs (ce : List DirectedEdge) (conns : List OSMConnectionEdge)
    (tnc : List (GraphId × Nat)) :
    ∀ (nbs : List NodeInfo) (k : Nat) (s : BuildState) (base : Nat),
      nodesPartitionFrom nbs base = true →
      sortedBy (fun x => x) s.remSigns = true →
      (∀ x ∈ s.remSigns, base ≤ x ∧ x < base + sumCounts nbs) →
      sortedBy (fun x => x) s.remRests = true →
      (∀ x ∈ s.remRests, base ≤ x ∧ x < base + sumCounts nbs) →
      sortedBy (fun c => c.osm_node.id) (conns.drop s.added) = true →
      (∀ c ∈ conns.drop s.added, k ≤ c.osm_node.id ∧ c.osm_node.id < k + nbs.length ∧
        GetGraphId c.stop_node tnc ≠ GraphId.invalid) →
      ∃ s', roadPass ce conns tnc nbs k s = some s' ∧
        s'.updSigns = s.updSigns ++ s.remSigns.map
          (fun e => e + s.added + (conns.drop s.added).countP
            (fun c => decide (c.osm_node.id < k + nodeOfEdge nbs e))) ∧
        s'.remSigns = [] ∧
        s'.updRests = s.updRests ++ s.remRests.map
          (fun e => e + s.added + (conns.drop s.added).countP
            (fun c => decide (c.osm_node.id < k + nodeOfEdge nbs e))) ∧
        s'.remRests = [] := by
  intro nbs
  induction nbs with
  | nil =>
    intro k s base hpart hs1 hs2 hr1 hr2 hc1 hc2
    have hsn : s.remSigns = [] := by
      cases hsr : s.remSigns with
      | nil => rfl
      | cons x r =>
        exfalso
        have := hs2 x (by rw [hsr]; exact List.mem_cons_self x r)
        simp [sumCounts] at this
        omega
    have hrn : s.remRests = [] := by
      cases hrr : s.remRests with
      | nil => rfl
      | cons x r =>
        exfalso
        have := hr2 x (by rw [hrr]; exact List.mem_cons_self x r)
        simp [sumCounts] at this
        omega
    exact ⟨s, rfl, by rw [hsn]; simp, hsn, by rw [hrn]; simp, hrn⟩
  | cons nb rest ih =>
    intro k s base hpart hs1 hs2 hr1 hr2 hc1 hc2
    rw [nodesPartitionFrom, Bool.and_eq_true, decide_eq_true_eq] at hpart
    rcases hpart with ⟨hei, hpart2⟩
    rcases copyNodeEdges_signs ce nb.edge_count nb.edge_index s hs1
        (fun x hx => by rw [hei]; exact (hs2 x hx).1) hr1
        (fun x hx => by rw [hei]; exact (hr2 x hx).1) with ⟨cp1, cp2, cp3, cp4⟩
    rcases copyNodeEdges_basic ce nb.edge_count nb.edge_index s with
      ⟨cb1, cb2, cb3, cb4, cb5, cb6⟩
    have hfuel : (conns.drop s.added).length < conns.length + 1 := by
      rw [List.length_drop]
      omega
    rcases connLoop_spec conns tnc k s.dedges.length (conns.drop s.added)
        (conns.length + 1) (copyNodeEdges ce nb.edge_index nb.edge_count s)
        (by rw [cb2]) hfuel (fun c hc => (hc2 c hc).2.2) with
      ⟨s2, hcl, hadded, hdrop2, hu1, hu2, hu3, hu4⟩
    rw [cb2] at hadded
    rw [cp1] at hu1
    rw [cp2] at hu2
    rw [cp3] at hu3
    rw [cp4] at hu4
    rw [roadPass_cons, hcl]
    dsimp only
    have hDth : ∀ c ∈ (conns.drop s.added).dropWhile
        (fun c => decide (c.osm_node.id = k)), (k + 1) ≤ c.osm_node.id ∧
        c.osm_node.id < (k + 1) + rest.length ∧
        GetGraphId c.stop_node tnc ≠ GraphId.invalid := by
      intro c hc
      have hm := mem_of_mem_dropWhile _ _ c hc
      refine ⟨dropWhile_key_gt (fun c => c.osm_node.id) k (conns.drop s.added) hc1
        (fun c2 hc2m => (hc2 c2 hc2m).1) c hc, ?_, (hc2 c hm).2.2⟩
      have := (hc2 c hm).2.1
      rw [List.length_cons] at this
      omega
    have hSWge : ∀ x ∈ s.remSigns.dropWhile
        (fun x => decide (x < nb.edge_index + nb.edge_count)),
        base + nb.edge_count ≤ x ∧ x < (base + nb.edge_count) + sumCounts rest := by
      intro x hx
      have hm := mem_of_mem_dropWhile _ _ x hx
      have h1 := dropWhile_lt_ge (nb.edge_index + nb.edge_count) s.remSigns hs1 x hx
      have h2 := (hs2 x hm).2
      rw [show sumCounts (nb :: rest) = nb.edge_count + sumCounts rest from rfl] at h2
      omega
    have hRWge : ∀ x ∈ s.remRests.dropWhile
        (fun x => decide (x < nb.edge_index + nb.edge_count)),
        base + nb.edge_count ≤ x ∧ x < (base + nb.edge_count) + sumCounts rest := by
      intro x hx
      have hm := mem_of_mem_dropWhile _ _ x hx
      have h1 := dropWhile_lt_ge (nb.edge_index + nb.edge_count) s.remRests hr1 x hx
      have h2 := (hr2 x hm).2
      rw [show sumCounts (nb :: rest) = nb.edge_count + sumCounts rest from rfl] at h2
      omega
    rcases ih (k + 1)
        { s2 with
            rnodes := s2.rnodes ++
              [{ nb with edge_index := s.dedges.length,
                         edge_count := s2.dedges.length - s.dedges.length }] }
        (base + nb.edge_count) hpart2
        (by dsimp only; rw [hu2]; exact sortedBy_dropWhile _ _ _ hs1)
        (by dsimp only; rw [hu2]; exact hSWge)
        (by dsimp only; rw [hu4]; exact sortedBy_dropWhile _ _ _ hr1)
        (by dsimp only; rw [hu4]; exact hRWge)
        (by dsimp only; rw [hdrop2]; exact sortedBy_dropWhile _ _ _ hc1)
        (by dsimp only; rw [hdrop2]; exact hDth) with
      ⟨s', hrp, m1, m2, m3, m4⟩
    dsimp only at m1 m2 m3 m4
    rw [hu1, hu2, hdrop2, hadded] at m1
    rw [hu3, hu4, hdrop2, hadded] at m3
    have hnb : ∀ nb2 ∈ rest, base + nb.edge_count ≤ nb2.edge_index :=
      nodesPartition_ge rest (base + nb.edge_count) hpart2
    have hpt1 : ∀ e, e < nb.edge_index + nb.edge_count →
        e + s.added = e + s.added + (conns.drop s.added).countP
          (fun c => decide (c.osm_node.id < k + nodeOfEdge (nb :: rest) e)) := by
      intro e he
      have h0 : nodeOfEdge (nb :: rest) e = 0 := by
        rw [nodeOfEdge]
        apply List.countP_eq_zero.mpr
        intro nb2 hm
        simp only [decide_eq_true_eq]
        rcases List.mem_cons.mp hm with hm | hm
        · rw [hm]; omega
        · have h1 := hnb nb2 hm
          rw [hei] at he
          omega
      have h1 : (conns.drop s.added).countP
          (fun c => decide (c.osm_node.id < k + nodeOfEdge (nb :: rest) e)) = 0 := by
        apply List.countP_eq_zero.mpr
        intro c hc
        have h2 := (hc2 c hc).1
        simp only [decide_eq_true_eq]
        rw [h0]
        omega
      omega
    have hpt2 : ∀ e, nb.edge_index + nb.edge_count ≤ e →
        e + (s.added + ((conns.drop s.added).takeWhile
              (fun c => decide (c.osm_node.id = k))).length) +
          ((conns.drop s.added).dropWhile
              (fun c => decide (c.osm_node.id = k))).countP
            (fun c => decide (c.osm_node.id < k + 1 + nodeOfEdge rest e)) =
        e + s.added + (conns.drop s.added).countP
          (fun c => decide (c.osm_node.id < k + nodeOfEdge (nb :: rest) e)) := by
      intro e he
      have h1 : nodeOfEdge (nb :: rest) e = nodeOfEdge rest e + 1 := by
        simp only [nodeOfEdge, List.countP_cons, decide_eq_true_eq]
        rw [if_pos he]
      rw [h1]
      have harith : k + (nodeOfEdge rest e + 1) = k + 1 + nodeOfEdge rest e := by omega
      rw [harith]
      have hTlen : ((conns.drop s.added).takeWhile
            (fun c => decide (c.osm_node.id = k))).countP
          (fun c => decide (c.osm_node.id < k + 1 + nodeOfEdge rest e)) =
          ((conns.drop s.added).takeWhile
            (fun c => decide (c.osm_node.id = k))).length := by
        apply List.countP_eq_length.mpr
        intro c hc
        have h2 := List.mem_takeWhile_imp hc
        simp only [decide_eq_true_eq] at h2 ⊢
        omega
      have hsum : (conns.drop s.added).countP
          (fun c => decide (c.osm_node.id < k + 1 + nodeOfEdge rest e)) =
          ((conns.drop s.added).takeWhile
            (fun c => decide (c.osm_node.id = k))).countP
            (fun c => decide (c.osm_node.id < k + 1 + nodeOfEdge rest e)) +
          ((conns.drop s.added).dropWhile
            (fun c => decide (c.osm_node.id = k))).countP
            (fun c => decide (c.osm_node.id < k + 1 + nodeOfEdge rest e)) := by
        conv_lhs => rw [← List.takeWhile_append_dropWhile
          (fun c => decide (c.osm_node.id = k)) (conns.drop s.added)]
        rw [List.countP_append]
      rw [hsum, hTlen]
      omega
    refine ⟨s', hrp, ?_, m2, ?_, m4⟩
    · rw [m1, List.append_assoc]
      congr 1
      conv_rhs => rw [← List.takeWhile_append_dropWhile
        (fun x => decide (x < nb.edge_index + nb.edge_count)) s.remSigns]
      rw [List.map_append]
      congr 1
      · apply List.map_congr_left
        intro e hme
        have hp := List.mem_takeWhile_imp hme
        simp only [decide_eq_true_eq] at hp
        exact hpt1 e hp
      · apply List.map_congr_left
        intro e hme
        have hp := dropWhile_lt_ge (nb.edge_index + nb.edge_count) s.remSigns hs1 e hme
        exact hpt2 e hp
    · rw [m3, List.append_assoc]
      congr 1
      conv_rhs => rw [← List.takeWhile_append_dropWhile
        (fun x => decide (x < nb.edge_index + nb.edge_count)) s.remRests]
      rw [List.map_append]
      congr 1
      · apply List.map_congr_left
        intro e hme
        have hp := List.mem_takeWhile_imp hme
        simp only [decide_eq_true_eq] at hp
        exact hpt1 e hp
      · apply List.map_congr_left
        intro e hme
        have hp := dropWhile_lt_ge (nb.edge_index + nb.edge_count) s.remRests hr1 e hme
        exact hpt2 e hp

/-- C3: for every original sign and access-restriction record that
referenced edge index `e` in the pre-rebuild tile, the rebuilt tile's
corresponding record references edge index `e` plus the number of
connection edges inserted at road nodes whose index is strictly less
than the index of the road node at which edge `e` originates. -/
theorem C3_sign_reindex (tileid : GraphId) (cn : List NodeInfo)
    (ce : List DirectedEdge) (signs rests : List Nat)
    (pbfs : List (GraphId × List TransitStop)) (tnc : List (GraphId × Nat))
    (sem : List (GraphId × StopEdges)) (sa : List (GraphId × Bool))
    (conns : List OSMConnectionEdge) (rts : List (Nat × Nat))
    (dist : PointLL → PointLL → Rat) (t : TileOut)
    (hpart : nodesPartitionFrom cn 0 = true)
    (hs1 : sortedBy (fun x => x) signs = true)
    (hs2 : ∀ x ∈ signs, x < sumCounts cn)
    (hr1 : sortedBy (fun x => x) rests = true)
    (hr2 : ∀ x ∈ rests, x < sumCounts cn)
    (hc1 : sortedBy (fun c => c.osm_node.id) conns = true)
    (hc2 : ∀ c ∈ conns, c.osm_node.id < cn.length ∧
      GetGraphId c.stop_node tnc ≠ GraphId.invalid)
    (ht : AddToGraphM tileid cn ce signs rests pbfs tnc sem sa conns rts dist = some t) :
    t.signs = signs.map (fun e => e + connsBefore cn conns e) ∧
    t.rests = rests.map (fun e => e + connsBefore cn conns e) := by
  rcases AddToGraphM_elim tileid cn ce signs rests pbfs tnc sem sa conns rts dist t ht with
    ⟨stops, s1, s2, hpb, hrp, htp, hteq⟩
  rcases roadPass_signs ce conns tnc cn 0 ⟨[], [], [], signs, [], rests, 0, [], []⟩ 0
      hpart hs1 (fun x hx => ⟨Nat.zero_le _, by have := hs2 x hx; omega⟩)
      hr1 (fun x hx => ⟨Nat.zero_le _, by have := hr2 x hx; omega⟩)
      (by dsimp only; rw [List.drop_zero]; exact hc1)
      (by
        dsimp only
        rw [List.drop_zero]
        intro c hc
        exact ⟨Nat.zero_le _, by have := (hc2 c hc).1; omega, (hc2 c hc).2⟩) with
    ⟨s1', hrp', p1, p2, p3, p4⟩
  rw [hrp'] at hrp
  have heq := Option.some.inj hrp
  subst heq
  rcases transitPass_struct tileid stops pbfs conns tnc rts dist sem s1' s2 htp with
    ⟨t1, t2, t3, t4, t5, t6, t7, t8, t9, t10⟩
  subst hteq
  dsimp only
  dsimp only at p1 p3
  constructor
  · rw [t2, t3, p1, p2]
    rw [List.append_nil, List.nil_append]
    apply List.map_congr_left
    intro e hme
    simp [connsBefore]
  · rw [t4, t5, p3, p4]
    rw [List.append_nil, List.nil_append]
    apply List.map_congr_left
    intro e hme
    simp [connsBefore]

/-- Witness for C3 at the concrete witness tile: the single sign and the
single access restriction at old edge 0 stay at edge 0, since the one
connection edge is inserted at the node the old edge originates at, not
strictly before it. -/
theorem C3_witness :
    wOut.signs = [0].map (fun e => e + connsBefore [wNode] [wConn] e) ∧
    wOut.rests = [0].map (fun e => e + connsBefore [wNode] [wConn] e) :=
  C3_sign_reindex wTile [wNode] [wEdge] [0] [0] [(wTile, [wStop])] [(wTile, 1)] wSem []
    [wConn] [(0, 3)] (fun _ _ => 5) wOut rfl rfl
    (by intro x hx; rw [List.mem_singleton] at hx; subst hx; decide) rfl
    (by intro x hx; rw [List.mem_singleton] at hx; subst hx; decide) rfl
    (by intro c hc; rw [List.mem_singleton] at hc; subst hc; exact ⟨by decide, by decide⟩)
    rfl
